import Mathlib

/-!
Shallow embedding of the decision-and-accounting core of the paper-trading
bot (files `src/core/position_legs.py`, `src/core/paper_engine.py`,
`src/core/state.py`, `src/risk/limits.py`, `src/risk/position_sizing.py`,
`src/core/indicators.py`, `src/core/decision_engine.py`,
`src/core/auto_manager.py`).

Numbers are modelled by `ℚ` (the idealisation of the Python floats; the spec
asks for the accounting identities "exactly, to floating tolerance").
Python dicts keyed by symbol are modelled as insertion-ordered association
lists, matching dict iteration order and in-place updates.  Pure metadata
fields that no modelled code path reads (timestamps, stop/target stored on a
leg, notes, order types, confidence/regime strings on legs) are omitted from
the records; every field that any modelled function reads is kept.
Python exceptions are modelled by returning the state at the raise point
together with an `Except` value, so that statements about what a failed call
did to the state are expressible.
-/

namespace TradingBot

abbrev Sym := String

/-- One open lot, from `position_legs.Leg`: side is the Python string
("long" or "short"), qty and entry price. -/
structure Leg where
  side : String
  qty : ℚ
  entry : ℚ
deriving Repr, DecidableEq

/-- Signed quantity of one leg, from `PositionBook.net_qty`'s loop body:
`q += l.qty if l.side == "long" else -l.qty`. -/
def legSigned (l : Leg) : ℚ := if l.side = "long" then l.qty else -l.qty

/-- Net quantity of a book's legs, from `PositionBook.net_qty`. -/
def netQtyLegs (legs : List Leg) : ℚ := (legs.map legSigned).sum

/-- Weighted average entry over the net side's legs, from
`PositionBook.avg_entry` (the `if qty else 0` Python truthiness guard is
`qty ≠ 0`). -/
def avgEntryLegs (legs : List Leg) : ℚ :=
  let nq := netQtyLegs legs
  if nq = 0 then 0
  else if 0 < nq then
    let total := ((legs.filter (fun l => l.side = "long")).map (fun l => l.qty * l.entry)).sum
    let q := ((legs.filter (fun l => l.side = "long")).map (fun l => l.qty)).sum
    if q ≠ 0 then total / q else 0
  else
    let total := ((legs.filter (fun l => l.side = "short")).map (fun l => l.qty * l.entry)).sum
    let q := ((legs.filter (fun l => l.side = "short")).map (fun l => l.qty)).sum
    if q ≠ 0 then total / q else 0

/-- One ledger mutation record, from `paper_engine.Trade`; `side` is the
executed side string "buy" or "sell". -/
structure Trade where
  symbol : Sym
  side : String
  qty : ℚ
  price : ℚ
  fee : ℚ
  pnl_realized : ℚ
deriving Repr, DecidableEq

/-- The ledger, from `paper_engine.PaperPortfolio`: cash, fee rate, the
symbol → book dict (association list in dict insertion order; each book is
its list of legs) and the append-only trade list. -/
structure PaperPortfolio where
  cash : ℚ
  fee_rate : ℚ
  books : List (Sym × List Leg)
  trades : List Trade
deriving Repr, DecidableEq

/-- Legs of the book for a symbol (dict lookup); a missing book reads as the
empty book (what `get_book` creates). -/
def getLegs : List (Sym × List Leg) → Sym → List Leg
  | [], _ => []
  | e :: rest, s => if e.1 = s then e.2 else getLegs rest s

/-- Dict key containment, `symbol in self.books`. -/
def hasBook : List (Sym × List Leg) → Sym → Bool
  | [], _ => false
  | e :: rest, s => if e.1 = s then true else hasBook rest s

/-- Python `get_book` on a missing key inserts an empty book at the end of
the dict. -/
def ensureBook (books : List (Sym × List Leg)) (s : Sym) : List (Sym × List Leg) :=
  if hasBook books s then books else books ++ [(s, [])]

/-- In-place append of a leg to the symbol's book (`get_book` + `legs.append`):
if the key exists its legs grow at its dict position, otherwise a new entry is
added at the end. -/
def appendLeg (books : List (Sym × List Leg)) (s : Sym) (l : Leg) :
    List (Sym × List Leg) :=
  match books with
  | [] => [(s, [l])]
  | e :: rest =>
      if e.1 = s then (e.1, e.2 ++ [l]) :: rest else e :: appendLeg rest s l

/-- In-place replacement of the symbol's leg list (`book.legs = new_legs`). -/
def setBook (books : List (Sym × List Leg)) (s : Sym) (legs : List Leg) :
    List (Sym × List Leg) :=
  books.map (fun e => if e.1 = s then (e.1, legs) else e)

/-- Fee on a notional, from `PaperPortfolio._fee`. -/
def feeOf (fee_rate notional : ℚ) : ℚ := |notional| * fee_rate

/-- `PaperPortfolio.open_leg` (src/core/paper_engine.py lines 68-108), with
the state returned at the raise point on error.  Arguments the code only
copies into metadata (timestamp, sl/tp, confidence, regime, reason,
order_type) are omitted. -/
def open_leg (p : PaperPortfolio) (symbol side : String) (qty price : ℚ) :
    PaperPortfolio × Except String Trade :=
  if qty ≤ 0 then (p, .error "qty must be > 0")
  else
    let notional := qty * price
    let fee := feeOf p.fee_rate notional
    if side = "long" then
      if p.cash < notional + fee then
        (p, .error "Not enough cash for long (incl fee).")
      else
        let t : Trade := { symbol := symbol, side := "buy", qty := qty, price := price,
                           fee := fee, pnl_realized := -fee }
        ({ p with cash := p.cash - (notional + fee),
                  books := appendLeg p.books symbol { side := side, qty := qty, entry := price },
                  trades := p.trades ++ [t] }, .ok t)
    else if side = "short" then
      let t : Trade := { symbol := symbol, side := "sell", qty := qty, price := price,
                         fee := fee, pnl_realized := -fee }
      ({ p with cash := p.cash + (notional - fee),
                books := appendLeg p.books symbol { side := side, qty := qty, entry := price },
                trades := p.trades ++ [t] }, .ok t)
    else (p, .error "side must be long or short")

/-- The FIFO loop of `close_qty_fifo` (src/core/paper_engine.py lines
152-176): walk the legs in order threading the remaining quantity, skip legs
of the other side, accumulate per-chunk realized PnL, shrink each consumed
leg and keep it only if more than `1e-12` remains.  Returns
(realized-before-fee, remaining, new legs). -/
def fifoLoop (direction : String) (price : ℚ) : List Leg → ℚ → ℚ × ℚ × List Leg
  | [], remaining => (0, remaining, [])
  | leg :: rest, remaining =>
      if remaining ≤ 0 then
        let r := fifoLoop direction price rest remaining
        (r.1, r.2.1, leg :: r.2.2)
      else if leg.side ≠ direction then
        let r := fifoLoop direction price rest remaining
        (r.1, r.2.1, leg :: r.2.2)
      else
        let take := min leg.qty remaining
        let chunk := if direction = "long" then (price - leg.entry) * take
                     else (leg.entry - price) * take
        let r := fifoLoop direction price rest (remaining - take)
        (chunk + r.1, r.2.1,
          if (1 : ℚ) / 1000000000000 < leg.qty - take
          then { leg with qty := leg.qty - take } :: r.2.2 else r.2.2)

/-- `PaperPortfolio.close_qty_fifo` (src/core/paper_engine.py lines 110-192),
with the state returned at the raise point on error (note `get_book` has
already inserted an empty book when the symbol was unknown). -/
def close_qty_fifo (p : PaperPortfolio) (symbol : Sym) (qty_to_close price : ℚ) :
    PaperPortfolio × Except String Trade :=
  if qty_to_close ≤ 0 then (p, .error "qty_to_close must be > 0")
  else
    let books0 := ensureBook p.books symbol
    let p0 : PaperPortfolio := { p with books := books0 }
    let legs := getLegs books0 symbol
    let nq := netQtyLegs legs
    if nq = 0 then (p0, .error "No position to close.")
    else
      let direction := if 0 < nq then "long" else "short"
      let qty := min qty_to_close |nq|
      let notional := qty * price
      let fee := feeOf p.fee_rate notional
      if direction = "long" then
        let r := fifoLoop direction price legs qty
        let t : Trade := { symbol := symbol, side := "sell", qty := qty, price := price,
                           fee := fee, pnl_realized := r.1 - fee }
        ({ p0 with cash := p0.cash + (notional - fee),
                   books := setBook books0 symbol r.2.2,
                   trades := p0.trades ++ [t] }, .ok t)
      else
        if p0.cash < notional + fee then
          (p0, .error "Not enough cash to cover short (incl fee).")
        else
          let r := fifoLoop direction price legs qty
          let t : Trade := { symbol := symbol, side := "buy", qty := qty, price := price,
                             fee := fee, pnl_realized := r.1 - fee }
          ({ p0 with cash := p0.cash - (notional + fee),
                     books := setBook books0 symbol r.2.2,
                     trades := p0.trades ++ [t] }, .ok t)

/-- One ledger call: the data of an `open_leg` or `close_qty_fifo` call. -/
inductive Op where
  | openL (symbol side : String) (qty price : ℚ)
  | closeL (symbol : String) (qty price : ℚ)
deriving Repr, DecidableEq

/-- Apply one call to the ledger; a failed call contributes the state at the
raise point (which the atomicity theorem shows equals the prior state up to
an empty-book insertion). -/
def applyOp (p : PaperPortfolio) : Op → PaperPortfolio
  | .openL s side q pr => (open_leg p s side q pr).1
  | .closeL s q pr => (close_qty_fifo p s q pr).1

/-- Apply a sequence of ledger calls in order. -/
def applyOps (p : PaperPortfolio) (ops : List Op) : PaperPortfolio :=
  ops.foldl applyOp p

/-- Signed cash flow of a recorded Trade per the spec's rules: a "buy"
execution (opening a long, or closing a short) debits notional+fee, a "sell"
execution (opening a short, or closing a long) credits notional−fee. -/
def signedFlow (t : Trade) : ℚ :=
  if t.side = "buy" then -(t.qty * t.price + t.fee) else t.qty * t.price - t.fee

/-- Sum of the signed cash flows of a trade list. -/
def flowSum (ts : List Trade) : ℚ := (ts.map signedFlow).sum

theorem flowSum_append (ts : List Trade) (t : Trade) :
    flowSum (ts ++ [t]) = flowSum ts + signedFlow t := by
  simp [flowSum]

theorem applyOp_cash_flow (p : PaperPortfolio) (op : Op) :
    (applyOp p op).cash - flowSum (applyOp p op).trades = p.cash - flowSum p.trades := by
  cases op with
  | openL s side q pr =>
      by_cases h1 : q ≤ 0
      · simp [applyOp, open_leg, h1]
      by_cases h2 : side = "long"
      · by_cases h3 : p.cash < q * pr + feeOf p.fee_rate (q * pr)
        · simp [applyOp, open_leg, h1, h2, h3]
        · simp [applyOp, open_leg, h1, h2, h3, flowSum_append, signedFlow]
          try ring
      by_cases h4 : side = "short"
      · simp [applyOp, open_leg, h1, h2, h4, flowSum_append, signedFlow]
        try ring
      · simp [applyOp, open_leg, h1, h2, h4]
  | closeL s q pr =>
      by_cases h1 : q ≤ 0
      · simp [applyOp, close_qty_fifo, h1]
      by_cases h2 : netQtyLegs (getLegs (ensureBook p.books s) s) = 0
      · simp [applyOp, close_qty_fifo, h1, h2]
      by_cases h3 : 0 < netQtyLegs (getLegs (ensureBook p.books s) s)
      · simp [applyOp, close_qty_fifo, h1, h2, h3, flowSum_append, signedFlow]
        try ring
      · by_cases h4 : p.cash <
            (min q |netQtyLegs (getLegs (ensureBook p.books s) s)|) * pr +
              feeOf p.fee_rate ((min q |netQtyLegs (getLegs (ensureBook p.books s) s)|) * pr)
        · simp [applyOp, close_qty_fifo, h1, h2, h3, h4]
        · simp [applyOp, close_qty_fifo, h1, h2, h3, h4, flowSum_append, signedFlow]
          try ring

theorem applyOps_cash_flow (ops : List Op) (p : PaperPortfolio) :
    (applyOps p ops).cash - flowSum (applyOps p ops).trades = p.cash - flowSum p.trades := by
  induction ops generalizing p with
  | nil => rfl
  | cons op rest ih =>
      have h1 := applyOp_cash_flow p op
      have h2 := ih (applyOp p op)
      simp only [applyOps, List.foldl_cons] at h2 ⊢
      rw [h2, h1]

/-- C1.  Cash conservation: starting from a fresh portfolio, after any
sequence of `open_leg`/`close_qty_fifo` calls the cash balance equals the
starting cash plus the sum of the signed cash flows of every recorded Trade
(opening a long debits notional+fee, opening a short credits notional−fee,
closing a long credits notional−fee, closing a short debits notional+fee). -/
theorem cash_conservation (cash0 fr : ℚ) (ops : List Op) :
    (applyOps { cash := cash0, fee_rate := fr, books := [], trades := [] } ops).cash
      = cash0 + flowSum (applyOps { cash := cash0, fee_rate := fr, books := [], trades := [] } ops).trades := by
  have h := applyOps_cash_flow ops { cash := cash0, fee_rate := fr, books := [], trades := [] }
  simp only [flowSum, List.map_nil, List.sum_nil, sub_zero] at h
  simp only [flowSum]
  linarith

theorem getLegs_append_empty (books : List (Sym × List Leg)) (s t : Sym) :
    getLegs (books ++ [(s, [])]) t = getLegs books t := by
  induction books with
  | nil =>
      by_cases hst : s = t <;> simp [getLegs, hst]
  | cons e rest ih =>
      by_cases het : e.1 = t <;> simp [getLegs, het, ih]

theorem getLegs_ensureBook (books : List (Sym × List Leg)) (s t : Sym) :
    getLegs (ensureBook books s) t = getLegs books t := by
  unfold ensureBook
  split
  · rfl
  · exact getLegs_append_empty books s t

theorem open_leg_error_state (p : PaperPortfolio) (symbol side : String)
    (q pr : ℚ) (e : String)
    (h : (open_leg p symbol side q pr).2 = .error e) :
    (open_leg p symbol side q pr).1 = p := by
  by_cases h1 : q ≤ 0
  · simp [open_leg, h1]
  by_cases h2 : side = "long"
  · by_cases h3 : p.cash < q * pr + feeOf p.fee_rate (q * pr)
    · simp [open_leg, h1, h2, h3]
    · simp [open_leg, h1, h2, h3] at h
  by_cases h4 : side = "short"
  · simp [open_leg, h1, h2, h4] at h
  · simp [open_leg, h1, h2, h4]

theorem close_error_state (p : PaperPortfolio) (symbol : Sym)
    (cq cpr : ℚ) (e : String)
    (h : (close_qty_fifo p symbol cq cpr).2 = .error e) :
    (close_qty_fifo p symbol cq cpr).1 = { p with books := ensureBook p.books symbol }
      ∨ (close_qty_fifo p symbol cq cpr).1 = p := by
  by_cases h1 : cq ≤ 0
  · right; simp [close_qty_fifo, h1]
  by_cases h2 : netQtyLegs (getLegs (ensureBook p.books symbol) symbol) = 0
  · left; simp [close_qty_fifo, h1, h2]
  by_cases h3 : 0 < netQtyLegs (getLegs (ensureBook p.books symbol) symbol)
  · simp [close_qty_fifo, h1, h2, h3] at h
  · by_cases h4 : p.cash <
        (min cq |netQtyLegs (getLegs (ensureBook p.books symbol) symbol)|) * cpr +
          feeOf p.fee_rate ((min cq |netQtyLegs (getLegs (ensureBook p.books symbol) symbol)|) * cpr)
    · left; simp [close_qty_fifo, h1, h2, h3, h4]
    · simp [close_qty_fifo, h1, h2, h3, h4] at h

/-- C2.  Atomicity on error: whenever `open_leg` or `close_qty_fifo` fails
(non-positive quantity, invalid side, insufficient cash for a long open or a
short close, or closing against a book with zero net quantity — the only
error returns of the two functions), the call reports an error and leaves the
portfolio's cash, the legs of every book, and the trade list exactly as they
were before the call. -/
theorem ledger_error_atomic (p : PaperPortfolio) (symbol side : String)
    (q pr cq cpr : ℚ) :
    (∀ e, (open_leg p symbol side q pr).2 = .error e →
      (open_leg p symbol side q pr).1.cash = p.cash ∧
      (open_leg p symbol side q pr).1.trades = p.trades ∧
      ∀ t, getLegs (open_leg p symbol side q pr).1.books t = getLegs p.books t) ∧
    (∀ e, (close_qty_fifo p symbol cq cpr).2 = .error e →
      (close_qty_fifo p symbol cq cpr).1.cash = p.cash ∧
      (close_qty_fifo p symbol cq cpr).1.trades = p.trades ∧
      ∀ t, getLegs (close_qty_fifo p symbol cq cpr).1.books t = getLegs p.books t) := by
  constructor
  · intro e he
    rw [open_leg_error_state p symbol side q pr e he]
    exact ⟨rfl, rfl, fun _ => rfl⟩
  · intro e he
    rcases close_error_state p symbol cq cpr e he with h | h <;> rw [h]
    · exact ⟨rfl, rfl, fun t => getLegs_ensureBook p.books symbol t⟩
    · exact ⟨rfl, rfl, fun _ => rfl⟩

/-- Witness for C2: a concrete failing `open_leg` (non-positive quantity) and
a concrete failing `close_qty_fifo` (flat book) leave the portfolio intact. -/
theorem ledger_error_atomic_witness :
    (open_leg { cash := 1000, fee_rate := 1/1000, books := [], trades := [] }
        "X" "long" (-1) 10).2 = .error "qty must be > 0" ∧
    (close_qty_fifo { cash := 1000, fee_rate := 1/1000, books := [], trades := [] }
        "X" 1 10).2 = .error "No position to close." ∧
    (open_leg { cash := 1000, fee_rate := 1/1000, books := [], trades := [] }
        "X" "long" (-1) 10).1.cash = 1000 ∧
    (close_qty_fifo { cash := 1000, fee_rate := 1/1000, books := [], trades := [] }
        "X" 1 10).1.trades = [] ∧
    getLegs (close_qty_fifo { cash := 1000, fee_rate := 1/1000, books := [], trades := [] }
        "X" 1 10).1.books "X" = [] := by
  have h1 : (open_leg { cash := 1000, fee_rate := 1/1000, books := [], trades := [] }
      "X" "long" (-1) 10).2 = .error "qty must be > 0" := by
    norm_num [open_leg]
  have h2 : (close_qty_fifo { cash := 1000, fee_rate := 1/1000, books := [], trades := [] }
      "X" 1 10).2 = .error "No position to close." := by
    norm_num [close_qty_fifo, ensureBook, getLegs, netQtyLegs]
  refine ⟨h1, h2, ?_, ?_, ?_⟩
  · exact ((ledger_error_atomic { cash := 1000, fee_rate := 1/1000, books := [], trades := [] }
      "X" "long" (-1) 10 1 10).1 "qty must be > 0" h1).1
  · exact ((ledger_error_atomic { cash := 1000, fee_rate := 1/1000, books := [], trades := [] }
      "X" "long" (-1) 10 1 10).2 "No position to close." h2).2.1
  · have h3 := ((ledger_error_atomic { cash := 1000, fee_rate := 1/1000, books := [], trades := [] }
      "X" "long" (-1) 10 1 10).2 "No position to close." h2).2.2 "X"
    rw [h3]
    rfl

/-- Mark-to-market equity, from `PaperPortfolio.equity` (src/core/
paper_engine.py lines 42-48): fold over the books dict adding
net_qty × price for each book with non-zero net quantity whose symbol has a
supplied price.  The price dict is modelled as a partial map. -/
def equityP (p : PaperPortfolio) (prices : Sym → Option ℚ) : ℚ :=
  p.books.foldl
    (fun eq e =>
      if netQtyLegs e.2 ≠ 0 ∧ (prices e.1).isSome
      then eq + netQtyLegs e.2 * (prices e.1).getD 0 else eq)
    p.cash

/-- Net quantity of a symbol's book, from `PaperPortfolio.net_qty`. -/
def netQtyP (p : PaperPortfolio) (s : Sym) : ℚ := netQtyLegs (getLegs p.books s)

/-- Average entry of a symbol's book, from `PaperPortfolio.avg_entry`. -/
def avgEntryP (p : PaperPortfolio) (s : Sym) : ℚ := avgEntryLegs (getLegs p.books s)

/-- Open-leg count of a symbol's book, from `PositionBook.legs_count`. -/
def legsCountP (p : PaperPortfolio) (s : Sym) : ℕ := (getLegs p.books s).length

theorem equity_foldl (books : List (Sym × List Leg)) (prices : Sym → Option ℚ) (c : ℚ) :
    books.foldl
      (fun eq e =>
        if netQtyLegs e.2 ≠ 0 ∧ (prices e.1).isSome
        then eq + netQtyLegs e.2 * (prices e.1).getD 0 else eq) c
      = c + (books.map (fun e =>
          if (prices e.1).isSome ∧ netQtyLegs e.2 ≠ 0
          then netQtyLegs e.2 * (prices e.1).getD 0 else 0)).sum := by
  induction books generalizing c with
  | nil => simp
  | cons e rest ih =>
      by_cases h1 : netQtyLegs e.2 ≠ 0 <;> by_cases h2 : (prices e.1).isSome <;>
        simp [h1, h2, ih] <;> ring

/-- C10.  Equity with missing prices: for every portfolio and price map,
equity equals cash plus the sum of net_qty × price over exactly those books
whose symbol has a supplied price and whose net quantity is non-zero; and a
book whose instrument has no supplied price contributes nothing to equity
(removing it changes nothing, rather than raising an error). -/
theorem equity_missing_prices (p : PaperPortfolio) (prices : Sym → Option ℚ) :
    (equityP p prices = p.cash +
      (p.books.map (fun e =>
         if (prices e.1).isSome ∧ netQtyLegs e.2 ≠ 0
         then netQtyLegs e.2 * (prices e.1).getD 0 else 0)).sum) ∧
    (∀ s, prices s = none →
      equityP p prices =
        equityP { p with books := p.books.filter (fun e => e.1 ≠ s) } prices) := by
  constructor
  · exact equity_foldl p.books prices p.cash
  · intro s hs
    simp only [equityP]
    rw [equity_foldl, equity_foldl]
    congr 1
    induction p.books with
    | nil => rfl
    | cons e rest ih =>
        by_cases he : e.1 = s
        · have : (prices e.1).isSome = false := by rw [he, hs]; rfl
          simp [he, this, ih, hs]
        · simp [he, ih]

/-- Witness for C10: a portfolio with a priced book and an unpriced book;
only the priced one contributes, and dropping the unpriced one changes
nothing. -/
theorem equity_missing_prices_witness :
    equityP { cash := 100, fee_rate := 0,
              books := [("A", [{ side := "long", qty := 2, entry := 5 }]),
                        ("B", [{ side := "short", qty := 3, entry := 7 }])],
              trades := [] }
        (fun s => if s = "A" then some 10 else none) = 120 ∧
    equityP { cash := 100, fee_rate := 0,
              books := [("A", [{ side := "long", qty := 2, entry := 5 }]),
                        ("B", [{ side := "short", qty := 3, entry := 7 }])],
              trades := [] }
        (fun s => if s = "A" then some 10 else none)
      = equityP { cash := 100, fee_rate := 0,
                  books := ([("A", [{ side := "long", qty := 2, entry := 5 }]),
                             ("B", [{ side := "short", qty := 3, entry := 7 }])].filter
                               (fun e => e.1 ≠ "B")),
                  trades := [] }
        (fun s => if s = "A" then some 10 else none) := by
  constructor
  · simp [equityP, netQtyLegs, legSigned]
    norm_num
  · exact (equity_missing_prices
      { cash := 100, fee_rate := 0,
        books := [("A", [{ side := "long", qty := 2, entry := 5 }]),
                  ("B", [{ side := "short", qty := 3, entry := 7 }])],
        trades := [] }
      (fun s => if s = "A" then some 10 else none)).2 "B" rfl

/-- Engine state, from `state.EngineState`: the portfolio and the last
prices map (the `open_orders` list is read by no modelled function). -/
structure EngineState where
  portfolio : PaperPortfolio
  last_prices : Sym → Option ℚ

/-- Exposure fraction of one instrument, from `EngineState.exposure_pct`
(src/core/state.py lines 36-42): |net_qty × price| / equity, with 0 when the
equity or the price is non-positive (a missing price reads as 0.0 via
`dict.get(symbol, 0.0)`). -/
def exposure_pct (st : EngineState) (symbol : Sym) : ℚ :=
  let price := (st.last_prices symbol).getD 0
  let equity := equityP st.portfolio st.last_prices
  if equity ≤ 0 ∨ price ≤ 0 then 0
  else |netQtyP st.portfolio symbol * price| / equity

/-- Risk limits configuration, from `config.RiskConfig` (the fields
`check_limits` reads). -/
structure RiskConfig where
  max_drawdown_pct : ℚ
  max_trades : ℕ
  max_concurrent_legs : ℕ
  kill_switch_loss_pct : ℚ

/-- The risk gate, from `RiskManager.check_limits` (src/risk/limits.py lines
15-30).  Note the code compares exposure with `>=` and compares equity with
`(1 - kill_switch_loss_pct) * state.portfolio.cash`, the CURRENT cash
balance. -/
def check_limits (cfg : RiskConfig) (st : EngineState) (symbol : Sym) (qty : ℚ) : Bool :=
  if qty ≤ 0 then false
  else if cfg.max_drawdown_pct ≤ exposure_pct st symbol then false
  else if cfg.max_trades ≤ st.portfolio.trades.length then false
  else if equityP st.portfolio st.last_prices
            ≤ (1 - cfg.kill_switch_loss_pct) * st.portfolio.cash then false
  else if cfg.max_concurrent_legs ≤ legsCountP st.portfolio symbol then false
  else true

/-- The risk gate decision rule exactly as the claim words it (for the
refinement comparison): reject iff qty ≤ 0, or the exposure fraction EXCEEDS
(strictly) the configured maximum, or the trade count has reached the cap,
or equity has fallen to or below (1 − kill_switch_fraction) × INITIAL cash,
or the open-leg count has reached the cap. -/
def check_limits_claim (cfg : RiskConfig) (st : EngineState) (symbol : Sym)
    (qty : ℚ) (initial_cash : ℚ) : Prop :=
  ¬(qty ≤ 0 ∨ cfg.max_drawdown_pct < exposure_pct st symbol ∨
    cfg.max_trades ≤ st.portfolio.trades.length ∨
    equityP st.portfolio st.last_prices ≤ (1 - cfg.kill_switch_loss_pct) * initial_cash ∨
    cfg.max_concurrent_legs ≤ legsCountP st.portfolio symbol)

instance (cfg : RiskConfig) (st : EngineState) (symbol : Sym) (qty initial_cash : ℚ) :
    Decidable (check_limits_claim cfg st symbol qty initial_cash) := by
  unfold check_limits_claim; infer_instance

/-- Counterexample to C5 as stated.  Two concrete divergences from the
claim's iff: (state B) a profitable short has doubled the current cash, so
the code's kill switch — which compares against CURRENT cash, not initial
cash — trips even though equity never fell below (1−ks)×initial cash; and
(state A) exposure exactly EQUAL to the configured maximum is rejected by
the code (`>=`) although it does not "exceed" it. -/
theorem check_limits_counterexample :
    (check_limits ⟨1/5, 1000, 6, 1/4⟩
        { portfolio := { cash := 2000, fee_rate := 0,
                         books := [("Y", [{ side := "short", qty := 10, entry := 100 }])],
                         trades := [] },
          last_prices := fun s => if s = "Y" then some 100 else none }
        "X" 1 = false ∧
      check_limits_claim ⟨1/5, 1000, 6, 1/4⟩
        { portfolio := { cash := 2000, fee_rate := 0,
                         books := [("Y", [{ side := "short", qty := 10, entry := 100 }])],
                         trades := [] },
          last_prices := fun s => if s = "Y" then some 100 else none }
        "X" 1 1000) ∧
    (check_limits ⟨1/2, 1000, 6, 1/4⟩
        { portfolio := { cash := 50, fee_rate := 0,
                         books := [("X", [{ side := "long", qty := 1, entry := 50 }])],
                         trades := [] },
          last_prices := fun s => if s = "X" then some 50 else none }
        "X" 1 = false ∧
      check_limits_claim ⟨1/2, 1000, 6, 1/4⟩
        { portfolio := { cash := 50, fee_rate := 0,
                         books := [("X", [{ side := "long", qty := 1, entry := 50 }])],
                         trades := [] },
          last_prices := fun s => if s = "X" then some 50 else none }
        "X" 1 100) := by
  refine ⟨⟨?_, ?_⟩, ⟨?_, ?_⟩⟩ <;>
    simp [check_limits, check_limits_claim, exposure_pct, equityP, netQtyP, netQtyLegs,
          legSigned, legsCountP, getLegs, List.find?] <;> norm_num

/-- C5 amended: `check_limits` returns true iff qty > 0, AND the exposure
fraction is strictly below the configured maximum (the code rejects already
at equality, `>=`), AND the trade count is below the cap, AND equity is
strictly above (1 − kill_switch_fraction) × CURRENT cash (not initial cash),
AND the open-leg count is below the cap. -/
theorem check_limits_iff (cfg : RiskConfig) (st : EngineState) (symbol : Sym) (qty : ℚ) :
    check_limits cfg st symbol qty = true ↔
      (0 < qty ∧ exposure_pct st symbol < cfg.max_drawdown_pct ∧
       st.portfolio.trades.length < cfg.max_trades ∧
       (1 - cfg.kill_switch_loss_pct) * st.portfolio.cash
          < equityP st.portfolio st.last_prices ∧
       legsCountP st.portfolio symbol < cfg.max_concurrent_legs) := by
  unfold check_limits
  split_ifs with h1 h2 h3 h4 h5 <;> simp_all [not_le, not_lt, le_of_lt]

/-- Position sizing configuration, from `position_sizing.SizeConfig`. -/
structure SizeConfig where
  fixed_notional : ℚ
  risk_per_trade_pct : ℚ

/-- The position sizer, from `PositionSizer.size_position`
(src/risk/position_sizing.py lines 16-25). -/
def size_position (cfg : SizeConfig) (equity price : ℚ) (stop_loss : Option ℚ) : ℚ :=
  if price ≤ 0 then 0
  else
    match stop_loss with
    | none => max cfg.fixed_notional 0 / price
    | some sl =>
        if sl = price then max cfg.fixed_notional 0 / price
        else
          let risk_amt := max (equity * cfg.risk_per_trade_pct) 0
          let stop_dist := |price - sl|
          if stop_dist ≤ 0 then max cfg.fixed_notional 0 / price
          else max (risk_amt / stop_dist) 0

/-- C7.  Position sizer formula: the result is never negative; it is 0 when
price ≤ 0; with a (non-negatively configured) fixed notional it is
fixed_notional / price when stop_loss is null or equal to price; otherwise
it is max(equity × risk_fraction, 0) / |price − stop_loss|. -/
theorem size_position_spec (cfg : SizeConfig) (equity price : ℚ) (stop_loss : Option ℚ) :
    (0 ≤ size_position cfg equity price stop_loss) ∧
    (price ≤ 0 → size_position cfg equity price stop_loss = 0) ∧
    (0 ≤ cfg.fixed_notional → 0 < price → (stop_loss = none ∨ stop_loss = some price) →
      size_position cfg equity price stop_loss = cfg.fixed_notional / price) ∧
    (∀ sl, 0 < price → stop_loss = some sl → sl ≠ price →
      size_position cfg equity price stop_loss
        = max (equity * cfg.risk_per_trade_pct) 0 / |price - sl|) := by
  refine ⟨?_, ?_, ?_, ?_⟩
  · unfold size_position
    split
    · exact le_refl 0
    case isFalse hp =>
      have hp' : (0 : ℚ) ≤ price := by push_neg at hp; exact le_of_lt hp
      cases stop_loss with
      | none => exact div_nonneg (le_max_right _ _) hp'
      | some sl =>
          split
          · exact div_nonneg (le_max_right _ _) hp'
          · split
            · exact div_nonneg (le_max_right _ _) hp'
            · dsimp only
              split
              · exact div_nonneg (le_max_right _ _) hp'
              · simp
  · intro hp
    unfold size_position
    rw [if_pos hp]
  · intro hfn hp hstop
    unfold size_position
    rw [if_neg (not_le.mpr hp)]
    rcases hstop with h | h <;> subst h
    · rw [max_eq_left hfn]
    · simp [max_eq_left hfn]
  · intro sl hp hstop hne
    subst hstop
    unfold size_position
    rw [if_neg (not_le.mpr hp)]
    simp only [if_neg hne]
    have hdist : (0 : ℚ) < |price - sl| := abs_pos.mpr (sub_ne_zero.mpr (Ne.symm hne))
    rw [if_neg (not_le.mpr hdist)]
    exact max_eq_left (div_nonneg (le_max_right _ _) (le_of_lt hdist))

/-- Witness for C7: the spec's two examples — fixed sizing 100/10 = 10 with
no stop, and risk sizing (2000×0.02)/|20−19| = 40. -/
theorem size_position_spec_witness :
    size_position ⟨100, 1/50⟩ 1000 10 none = 10 ∧
    size_position ⟨100, 1/50⟩ 2000 20 (some 19) = 40 := by
  constructor
  · rw [(size_position_spec ⟨100, 1/50⟩ 1000 10 none).2.2.1 (by norm_num) (by norm_num)
        (Or.inl rfl)]
    norm_num
  · rw [(size_position_spec ⟨100, 1/50⟩ 2000 20 (some 19)).2.2.2 19 (by norm_num) rfl
        (by norm_num)]
    norm_num

/-- A trade decision, from `decision_engine.TradeDecision` (the timeframe
label, symbol and the logging-only reasons list are omitted). -/
structure TradeDecision where
  action : String
  entry : Option ℚ
  stop_loss : Option ℚ
  take_profit : Option ℚ
  confidence : ℚ
  regime : String
deriving Repr, DecidableEq

/-- The last-bar values `DecisionEngine.decide` reads off the indicator
series; possibly-NaN floats (`rsi` and `atr` rolling windows) are `Option ℚ`
with `none` for NaN, all of whose order comparisons are false, as in IEEE. -/
structure Ind where
  regime : String
  e20 : ℚ
  e50 : ℚ
  e200 : ℚ
  m : ℚ
  s : ℚ
  h : ℚ
  hPrev : ℚ
  rsiLast : Option ℚ
  atrLast : Option ℚ
  lastClose : ℚ

/-- Comparison `x > c` on a possibly-NaN float (false for NaN). -/
def nanGT (x : Option ℚ) (c : ℚ) : Bool :=
  match x with
  | some v => decide (c < v)
  | none => false

/-- Comparison `x < c` on a possibly-NaN float (false for NaN). -/
def nanLT (x : Option ℚ) (c : ℚ) : Bool :=
  match x with
  | some v => decide (v < c)
  | none => false

/-- The action/confidence stage of `DecisionEngine.decide`
(src/core/decision_engine.py lines 42-91, before clamping): signal booleans
and the regime-keyed rule table. -/
def actionConf (i : Ind) : String × ℚ :=
  let trend_up := decide (i.e50 < i.e20) && decide (i.e200 < i.e50)
  let trend_dn := decide (i.e20 < i.e50) && decide (i.e50 < i.e200)
  let macd_up := decide (i.s < i.m) && decide (0 < i.h)
  let macd_dn := decide (i.m < i.s) && decide (i.h < 0)
  if i.regime = "TREND" then
    if trend_up && macd_up && nanGT i.rsiLast 45 then ("BUY", 35/100 + 15/100 + 25/100)
    else if trend_dn && macd_dn && nanLT i.rsiLast 55 then ("SELL", 35/100 + 15/100 + 25/100)
    else ("HOLD", 35/100 + 15/100 - 5/100)
  else if i.regime = "RANGE" then
    if nanLT i.rsiLast 32 && decide (i.hPrev < i.h) then ("BUY", 35/100 + 10/100 + 20/100)
    else if nanGT i.rsiLast 68 && decide (i.h < i.hPrev) then ("SELL", 35/100 + 10/100 + 20/100)
    else ("HOLD", 35/100 + 10/100 - 5/100)
  else ("HOLD", 35/100 - 15/100)

namespace DecisionEngine

/-- `DecisionEngine.decide` (src/core/decision_engine.py lines 27-118):
confidence clamped to [0,1], entry set for BUY/SELL, and the ATR-based
stop/target block (lines 93-103) guarded by `entry is not None and
atr_last > 0`; `kSL` is `risk_atr_mult_sl` (default 1.8) and `R` is
`reward_r` (default 2.0). -/
def decide (kSL R : ℚ) (i : Ind) : TradeDecision :=
  let ac := actionConf i
  let action := ac.1
  let confidence := max 0 (min 1 ac.2)
  let entry : Option ℚ := if action = "BUY" ∨ action = "SELL" then some i.lastClose else none
  match entry, i.atrLast with
  | some e, some a =>
      if 0 < a then
        if action = "BUY" then
          let sl := e - kSL * a
          let tp := e + R * (e - sl)
          { action := action, entry := entry, stop_loss := some sl,
            take_profit := some tp, confidence := confidence, regime := i.regime }
        else
          let sl := e + kSL * a
          let tp := e - R * (sl - e)
          { action := action, entry := entry, stop_loss := some sl,
            take_profit := some tp, confidence := confidence, regime := i.regime }
      else
        { action := action, entry := entry, stop_loss := none,
          take_profit := none, confidence := confidence, regime := i.regime }
  | _, _ =>
      { action := action, entry := entry, stop_loss := none,
        take_profit := none, confidence := confidence, regime := i.regime }

end DecisionEngine

theorem actionConf_cases (i : Ind) :
    (actionConf i).1 = "BUY" ∨ (actionConf i).1 = "SELL" ∨ (actionConf i).1 = "HOLD" := by
  unfold actionConf
  dsimp only
  split_ifs <;> simp

/-- C6.  Stop/target computation at the default parameters k = 1.8, R = 2.0:
stop-loss and take-profit are non-null exactly when the action is BUY or
SELL and the ATR is available and strictly positive; for BUY,
stop = entry − 1.8·ATR and target = entry + 2·(entry − stop); mirrored for
SELL; the entry is the last close whenever the action is not HOLD; with ATR
zero or unavailable the stop and target are null while the action is
returned unchanged. -/
theorem decide_stop_target (i : Ind) :
    ((DecisionEngine.decide (9/5) 2 i).stop_loss ≠ none ∧
        (DecisionEngine.decide (9/5) 2 i).take_profit ≠ none ↔
      ((DecisionEngine.decide (9/5) 2 i).action = "BUY" ∨
        (DecisionEngine.decide (9/5) 2 i).action = "SELL") ∧
        ∃ a, i.atrLast = some a ∧ 0 < a) ∧
    (∀ a, i.atrLast = some a → 0 < a → (DecisionEngine.decide (9/5) 2 i).action = "BUY" →
      (DecisionEngine.decide (9/5) 2 i).stop_loss = some (i.lastClose - (9/5) * a) ∧
      (DecisionEngine.decide (9/5) 2 i).take_profit
        = some (i.lastClose + 2 * (i.lastClose - (i.lastClose - (9/5) * a)))) ∧
    (∀ a, i.atrLast = some a → 0 < a → (DecisionEngine.decide (9/5) 2 i).action = "SELL" →
      (DecisionEngine.decide (9/5) 2 i).stop_loss = some (i.lastClose + (9/5) * a) ∧
      (DecisionEngine.decide (9/5) 2 i).take_profit
        = some (i.lastClose - 2 * (i.lastClose + (9/5) * a - i.lastClose))) ∧
    ((DecisionEngine.decide (9/5) 2 i).action = (actionConf i).1 ∧
      ((DecisionEngine.decide (9/5) 2 i).action = "BUY" ∨
        (DecisionEngine.decide (9/5) 2 i).action = "SELL" →
        (DecisionEngine.decide (9/5) 2 i).entry = some i.lastClose)) := by
  rcases actionConf_cases i with hact | hact | hact <;>
    rcases hatr : i.atrLast with _ | a
  · simp [DecisionEngine.decide, hact, hatr]
  · rcases le_or_lt a 0 with ha | ha
    · simp [DecisionEngine.decide, hact, hatr, not_lt.mpr ha]
      exact ha
    · simp [DecisionEngine.decide, hact, hatr, ha]
  · simp [DecisionEngine.decide, hact, hatr]
  · rcases le_or_lt a 0 with ha | ha
    · simp [DecisionEngine.decide, hact, hatr, not_lt.mpr ha]
      exact ha
    · simp [DecisionEngine.decide, hact, hatr, ha]
  · simp [DecisionEngine.decide, hact, hatr]
  · simp [DecisionEngine.decide, hact, hatr]

/-- Witness for C6: a concrete TREND/bullish bar with ATR 1 and last close
100 yields a BUY with stop 100 − 1.8 and target 100 + 3.6. -/
theorem decide_stop_target_witness :
    (DecisionEngine.decide (9/5) 2
        { regime := "TREND", e20 := 3, e50 := 2, e200 := 1, m := 1, s := 0, h := 1,
          hPrev := 0, rsiLast := some 50, atrLast := some 1, lastClose := 100 }).action
      = "BUY" ∧
    (DecisionEngine.decide (9/5) 2
        { regime := "TREND", e20 := 3, e50 := 2, e200 := 1, m := 1, s := 0, h := 1,
          hPrev := 0, rsiLast := some 50, atrLast := some 1, lastClose := 100 }).stop_loss
      = some (491/5) ∧
    (DecisionEngine.decide (9/5) 2
        { regime := "TREND", e20 := 3, e50 := 2, e200 := 1, m := 1, s := 0, h := 1,
          hPrev := 0, rsiLast := some 50, atrLast := some 1, lastClose := 100 }).take_profit
      = some (518/5) := by
  have hb : (DecisionEngine.decide (9/5) 2
      { regime := "TREND", e20 := 3, e50 := 2, e200 := 1, m := 1, s := 0, h := 1,
        hPrev := 0, rsiLast := some 50, atrLast := some 1, lastClose := 100 }).action
      = "BUY" := by
    norm_num [DecisionEngine.decide, actionConf, nanGT]
  have h := (decide_stop_target
      { regime := "TREND", e20 := 3, e50 := 2, e200 := 1, m := 1, s := 0, h := 1,
        hPrev := 0, rsiLast := some 50, atrLast := some 1, lastClose := 100 }).2.1
      1 rfl (by norm_num) hb
  refine ⟨hb, ?_, ?_⟩
  · rw [h.1]; norm_num
  · rw [h.2]; norm_num

/-- A possibly-NaN float value, for the oscillator output. -/
inductive PF where
  | nan
  | val (q : ℚ)
deriving Repr, DecidableEq

/-- Last value of `indicators.rsi(close, period)` (src/core/indicators.py
lines 8-16) with the pandas/IEEE float semantics made explicit:
`delta = close.diff()` (first entry NaN), gains/losses clipped at 0, rolling
means over `period` entries (NaN while the window still contains the NaN
first diff, i.e. unless the series has at least period+1 points), then
`out = 100 − 100/(1 + avg_gain/avg_loss)`.  With avg_loss = 0 the division
gives +∞ when avg_gain > 0 (so out = 100 − 100/∞ = 100) and NaN when
avg_gain = 0 (0/0, which propagates). -/
def rsiLastVal (close : List ℚ) (period : ℕ) : PF :=
  if close.length < period + 1 then .nan
  else
    let diffs := (close.zip close.tail).map (fun p => p.2 - p.1)
    let window := diffs.drop (diffs.length - period)
    let avg_gain := (window.map (fun d => max d 0)).sum / (period : ℚ)
    let avg_loss := (window.map (fun d => max (-d) 0)).sum / (period : ℚ)
    if avg_loss ≠ 0 then .val (100 - 100 / (1 + avg_gain / avg_loss))
    else if avg_gain = 0 then .nan
    else .val 100

/-- The oscillator value the decision engine uses, from
src/core/decision_engine.py line 51: `float(r.iloc[-1]) if len(r) else 50.0`
— the 50.0 fallback applies only to an empty series. -/
def rsiUsed (close : List ℚ) : PF :=
  if close.length = 0 then .val 50 else rsiLastVal close 14

/-- Counterexample to C9 as stated.  On the monotonically increasing series
1..15 the average loss over the 14-bar lookback is zero, and the oscillator
value the decision engine uses is 100 — the maximum, not the neutral
midpoint 50. -/
theorem rsi_degenerate_counterexample :
    rsiUsed [1, 2, 3, 4, 5, 6, 7, 8, 9, 10, 11, 12, 13, 14, 15] = PF.val 100 ∧
    PF.val 100 ≠ PF.val 50 := by
  constructor
  · norm_num [rsiUsed, rsiLastVal]
  · simp

/-- C9 amended: when every price change is non-negative (so the average loss
over the lookback window is zero), the oscillator's last value is 100 when
some gain is present and NaN when the window is flat — never the neutral
midpoint 50; the engine's 50.0 fallback applies only to an empty series. -/
theorem rsi_zero_avg_loss (close : List ℚ) (period : ℕ)
    (hlen : period + 1 ≤ close.length)
    (hmono : ∀ d ∈ (close.zip close.tail).map (fun p => p.2 - p.1), 0 ≤ d) :
    (rsiLastVal close period = PF.val 100 ∨ rsiLastVal close period = PF.nan) ∧
    rsiLastVal close period ≠ PF.val 50 := by
  unfold rsiLastVal
  rw [if_neg (by omega)]
  have hloss : (((((close.zip close.tail).map (fun p => p.2 - p.1)).drop
      (((close.zip close.tail).map (fun p => p.2 - p.1)).length - period)).map
        (fun d => max (-d) 0)).sum) = 0 := by
    apply List.sum_eq_zero
    intro x hx
    rcases List.mem_map.mp hx with ⟨d, hd, hxd⟩
    have hd' : 0 ≤ d := hmono d (List.mem_of_mem_drop hd)
    rw [← hxd]
    simp only [max_eq_right_iff]
    linarith
  dsimp only
  rw [hloss]
  simp only [zero_div, ne_eq, not_true_eq_false, if_false]
  by_cases hg : ((((close.zip close.tail).map (fun p => p.2 - p.1)).drop
      (((close.zip close.tail).map (fun p => p.2 - p.1)).length - period)).map
        (fun d => max d 0)).sum / (period : ℚ) = 0
  · rw [if_pos hg]
    exact ⟨Or.inr rfl, by simp⟩
  · rw [if_neg hg]
    exact ⟨Or.inl rfl, by simp⟩

/-- Witness for the amended C9 at the concrete series 1..15. -/
theorem rsi_zero_avg_loss_witness :
    (rsiLastVal [1, 2, 3, 4, 5, 6, 7, 8, 9, 10, 11, 12, 13, 14, 15] 14 = PF.val 100 ∨
      rsiLastVal [1, 2, 3, 4, 5, 6, 7, 8, 9, 10, 11, 12, 13, 14, 15] 14 = PF.nan) ∧
    rsiLastVal [1, 2, 3, 4, 5, 6, 7, 8, 9, 10, 11, 12, 13, 14, 15] 14 ≠ PF.val 50 :=
  rsi_zero_avg_loss [1, 2, 3, 4, 5, 6, 7, 8, 9, 10, 11, 12, 13, 14, 15] 14
    (by norm_num) (by norm_num)

/-- A book simultaneously holds a leg with non-zero quantity on the long
side and one on the short side. -/
def bothSides (legs : List Leg) : Prop :=
  (∃ l ∈ legs, l.side = "long" ∧ l.qty ≠ 0) ∧ (∃ l ∈ legs, l.side = "short" ∧ l.qty ≠ 0)

theorem getLegs_appendLeg_eq (books : List (Sym × List Leg)) (s : Sym) (l : Leg) :
    getLegs (appendLeg books s l) s = getLegs books s ++ [l] := by
  induction books with
  | nil => simp [appendLeg, getLegs]
  | cons e rest ih =>
      by_cases he : e.1 = s
      · simp [appendLeg, getLegs, he]
      · simpa [appendLeg, getLegs, he] using ih

theorem getLegs_appendLeg_ne (books : List (Sym × List Leg)) (s t : Sym) (l : Leg)
    (h : t ≠ s) :
    getLegs (appendLeg books s l) t = getLegs books t := by
  have hst : ¬ s = t := fun hc => h hc.symm
  induction books with
  | nil => simp [appendLeg, getLegs, hst]
  | cons e rest ih =>
      by_cases he : e.1 = s
      · have het : ¬ e.1 = t := fun hc => hst (he ▸ hc)
        simp [appendLeg, getLegs, he, het, hst, h]
      · by_cases het : e.1 = t
        · simp [appendLeg, getLegs, he, het, hst, h]
        · simpa [appendLeg, getLegs, he, het, hst, h] using ih

theorem getLegs_setBook_eq (books : List (Sym × List Leg)) (s : Sym) (legs : List Leg)
    (h : hasBook books s = true) :
    getLegs (setBook books s legs) s = legs := by
  induction books with
  | nil => simp [hasBook] at h
  | cons e rest ih =>
      by_cases he : e.1 = s
      · simp [setBook, getLegs, he]
      · rw [hasBook] at h
        rw [if_neg he] at h
        simpa [setBook, getLegs, he] using ih h

theorem getLegs_setBook_ne (books : List (Sym × List Leg)) (s t : Sym) (legs : List Leg)
    (h : t ≠ s) :
    getLegs (setBook books s legs) t = getLegs books t := by
  have hst : ¬ s = t := fun hc => h hc.symm
  induction books with
  | nil => simp [setBook, getLegs]
  | cons e rest ih =>
      simp only [setBook, List.map_cons] at ih ⊢
      by_cases he : e.1 = s
      · have het : ¬ e.1 = t := fun hc => h (hc ▸ he ▸ rfl)
        simp [getLegs, he, het, hst, h, ih]
      · by_cases het : e.1 = t
        · simp [getLegs, he, het, hst, h]
        · simp [getLegs, he, het, hst, h, ih]

theorem ensureBook_found (books : List (Sym × List Leg)) (s : Sym) :
    hasBook (ensureBook books s) s = true := by
  unfold ensureBook
  split
  case isTrue h => exact h
  case isFalse h =>
    induction books with
    | nil => simp [hasBook]
    | cons e rest ih =>
        by_cases he : e.1 = s
        · simp [hasBook, he]
        · rw [hasBook] at h
          rw [if_neg he] at h
          simpa [hasBook, he] using ih h

theorem fifoLoop_legs_from (direction : String) (price : ℚ) (legs : List Leg) (rem : ℚ) :
    ∀ lr ∈ (fifoLoop direction price legs rem).2.2,
      ∃ l ∈ legs, lr.side = l.side ∧ (lr.qty ≠ 0 → l.qty ≠ 0) := by
  induction legs generalizing rem with
  | nil => intro lr hlr; simp [fifoLoop] at hlr
  | cons leg rest ih =>
      intro lr hlr
      by_cases h1 : rem ≤ 0
      · simp only [fifoLoop, if_pos h1, List.mem_cons] at hlr
        rcases hlr with h | h
        · exact ⟨leg, List.mem_cons_self _ _, by rw [h], by rw [h]; exact id⟩
        · rcases ih rem lr h with ⟨l, hl, hside, hqty⟩
          exact ⟨l, List.mem_cons_of_mem _ hl, hside, hqty⟩
      by_cases h2 : leg.side ≠ direction
      · simp only [fifoLoop, if_neg h1, if_pos h2, List.mem_cons] at hlr
        rcases hlr with h | h
        · exact ⟨leg, List.mem_cons_self _ _, by rw [h], by rw [h]; exact id⟩
        · rcases ih rem lr h with ⟨l, hl, hside, hqty⟩
          exact ⟨l, List.mem_cons_of_mem _ hl, hside, hqty⟩
      · simp only [fifoLoop, if_neg h1, if_neg h2] at hlr
        by_cases h3 : (1 : ℚ) / 1000000000000 < leg.qty - min leg.qty rem
        · rw [if_pos h3] at hlr
          rcases List.mem_cons.mp hlr with h | h
          · refine ⟨leg, List.mem_cons_self _ _, by rw [h], fun _ => ?_⟩
            intro hq0
            have hr : (0 : ℚ) < rem := lt_of_not_le h1
            rw [hq0, min_eq_left (le_of_lt hr)] at h3
            norm_num at h3
          · rcases ih (rem - min leg.qty rem) lr h with ⟨l, hl, hside, hqty⟩
            exact ⟨l, List.mem_cons_of_mem _ hl, hside, hqty⟩
        · rw [if_neg h3] at hlr
          rcases ih (rem - min leg.qty rem) lr hlr with ⟨l, hl, hside, hqty⟩
          exact ⟨l, List.mem_cons_of_mem _ hl, hside, hqty⟩

theorem close_preserves_oneSided (p : PaperPortfolio) (symbol : Sym) (cq cpr : ℚ)
    (t : Sym) (h : ¬ bothSides (getLegs p.books t)) :
    ¬ bothSides (getLegs (close_qty_fifo p symbol cq cpr).1.books t) := by
  by_cases h1 : cq ≤ 0
  · simpa [close_qty_fifo, h1] using h
  by_cases h2 : netQtyLegs (getLegs (ensureBook p.books symbol) symbol) = 0
  · simp only [close_qty_fifo, if_neg h1, if_pos h2]
    rw [getLegs_ensureBook]
    exact h
  · have hmain : ∀ newlegs,
        (∀ lr ∈ newlegs, ∃ l ∈ getLegs (ensureBook p.books symbol) symbol,
          lr.side = l.side ∧ (lr.qty ≠ 0 → l.qty ≠ 0)) →
        ¬ bothSides (getLegs (setBook (ensureBook p.books symbol) symbol newlegs) t) := by
      intro newlegs hfrom hb
      by_cases hts : t = symbol
      · subst hts
        rw [getLegs_setBook_eq _ _ _ (ensureBook_found _ _)] at hb
        rcases hb with ⟨⟨l1, hl1, hs1, hq1⟩, ⟨l2, hl2, hs2, hq2⟩⟩
        rcases hfrom l1 hl1 with ⟨m1, hm1, hms1, hmq1⟩
        rcases hfrom l2 hl2 with ⟨m2, hm2, hms2, hmq2⟩
        rw [getLegs_ensureBook] at hm1 hm2
        exact h ⟨⟨m1, hm1, hms1 ▸ hs1, hmq1 hq1⟩, ⟨m2, hm2, hms2 ▸ hs2, hmq2 hq2⟩⟩
      · rw [getLegs_setBook_ne _ _ _ _ hts, getLegs_ensureBook] at hb
        exact h hb
    by_cases h3 : 0 < netQtyLegs (getLegs (ensureBook p.books symbol) symbol)
    · simp only [close_qty_fifo, if_neg h1, if_neg h2, if_pos h3]
      simpa using hmain _ (fifoLoop_legs_from _ _ _ _)
    · by_cases h4 : p.cash <
          (min cq |netQtyLegs (getLegs p.books symbol)|) * cpr +
            feeOf p.fee_rate ((min cq |netQtyLegs (getLegs p.books symbol)|) * cpr)
      · simp only [close_qty_fifo, if_neg h1, if_neg h2, if_neg h3]
        simpa [getLegs_ensureBook, h4] using h
      · simp only [close_qty_fifo, if_neg h1, if_neg h2, if_neg h3]
        simpa [getLegs_ensureBook, h4] using hmain _ (fifoLoop_legs_from _ _ _ _)

theorem open_preserves_oneSided (p : PaperPortfolio) (symbol side : String) (q pr : ℚ)
    (t : Sym)
    (halign : ∀ l ∈ getLegs p.books symbol, l.qty ≠ 0 → l.side = side)
    (h : ¬ bothSides (getLegs p.books t)) :
    ¬ bothSides (getLegs (open_leg p symbol side q pr).1.books t) := by
  by_cases h1 : q ≤ 0
  · simpa [open_leg, h1] using h
  have hmain : ¬ bothSides (getLegs (appendLeg p.books symbol
      { side := side, qty := q, entry := pr }) t) := by
    intro hb
    by_cases hts : t = symbol
    · subst hts
      rw [getLegs_appendLeg_eq] at hb
      have hall : ∀ l ∈ getLegs p.books t ++ [({ side := side, qty := q, entry := pr } : Leg)],
          l.qty ≠ 0 → l.side = side := by
        intro l hl hq0
        rcases List.mem_append.mp hl with hl | hl
        · exact halign l hl hq0
        · rcases List.mem_singleton.mp hl with rfl
          rfl
      rcases hb with ⟨⟨l1, hl1, hs1, hq1⟩, ⟨l2, hl2, hs2, hq2⟩⟩
      have e1 := hall l1 hl1 hq1
      have e2 := hall l2 hl2 hq2
      rw [hs1] at e1
      rw [hs2] at e2
      exact absurd (e1.trans e2.symm) (by decide)
    · rw [getLegs_appendLeg_ne _ _ _ _ hts] at hb
      exact h hb
  by_cases h2 : side = "long"
  · by_cases h3 : p.cash < q * pr + feeOf p.fee_rate (q * pr)
    · simpa [open_leg, h1, h2, h3] using h
    · simpa [open_leg, h1, h2, h3] using hmain
  by_cases h4 : side = "short"
  · simpa [open_leg, h1, h2, h4] using hmain
  · simpa [open_leg, h1, h2, h4] using h

/-- Every open in the sequence is aligned with the book it lands on: at the
moment of the call, every non-zero leg of that book (if any) is on the side
being opened.  These are the only opens the orchestrator performs (entries
on flat books and same-direction adds). -/
def alignedOps : PaperPortfolio → List Op → Prop
  | _, [] => True
  | p, op :: rest =>
      (match op with
       | Op.openL s side _ _ => ∀ l ∈ getLegs p.books s, l.qty ≠ 0 → l.side = side
       | Op.closeL _ _ _ => True) ∧ alignedOps (applyOp p op) rest

/-- Counterexample to C4 as stated: `open_leg` never checks the book's
direction, so opening a long leg and then a short leg on the same symbol
leaves the book simultaneously holding a non-zero long leg and a non-zero
short leg. -/
theorem one_sided_book_counterexample :
    bothSides (getLegs (applyOps { cash := 1000, fee_rate := 0, books := [], trades := [] }
      [Op.openL "X" "long" 1 10, Op.openL "X" "short" 2 10]).books "X") := by
  have hlegs : getLegs (applyOps { cash := 1000, fee_rate := 0, books := [], trades := [] }
      [Op.openL "X" "long" 1 10, Op.openL "X" "short" 2 10]).books "X"
      = [{ side := "long", qty := 1, entry := 10 }, { side := "short", qty := 2, entry := 10 }] := by
    norm_num [applyOps, applyOp, open_leg, feeOf, appendLeg, getLegs, List.find?]
  rw [hlegs]
  constructor
  · exact ⟨_, List.mem_cons_self _ _, rfl, by norm_num⟩
  · exact ⟨_, List.mem_cons_of_mem _ (List.mem_cons_self _ _), rfl, by norm_num⟩

/-- C4 amended: the one-sided book property is an invariant of every
sequence of `open_leg`/`close_qty_fifo` calls in which each open is aligned
(made on a book whose non-zero legs are all on the side being opened, i.e.
flat books or same-direction adds — the only opens the orchestrator makes);
unrestricted `open_leg` calls can violate it, since the code never asserts
the direction. -/
theorem one_sided_book_invariant (ops : List Op) (p : PaperPortfolio)
    (h0 : ∀ t, ¬ bothSides (getLegs p.books t))
    (halign : alignedOps p ops) :
    ∀ t, ¬ bothSides (getLegs (applyOps p ops).books t) := by
  induction ops generalizing p with
  | nil => exact h0
  | cons op rest ih =>
      rcases halign with ⟨hop, hrest⟩
      have hstep : ∀ t, ¬ bothSides (getLegs (applyOp p op).books t) := by
        intro t
        cases op with
        | openL s side q pr => exact open_preserves_oneSided p s side q pr t hop (h0 t)
        | closeL s q pr => exact close_preserves_oneSided p s q pr t (h0 t)
      exact ih (applyOp p op) hstep hrest

/-- Witness for the amended C4: open long, add long, partially close — the
book never holds both sides. -/
theorem one_sided_book_invariant_witness :
    ¬ bothSides (getLegs (applyOps { cash := 1000, fee_rate := 0, books := [], trades := [] }
      [Op.openL "X" "long" 1 10, Op.openL "X" "long" 2 11, Op.closeL "X" 1 12]).books "X") := by
  refine one_sided_book_invariant _ _ ?_ ?_ "X"
  · intro t
    simp [bothSides, getLegs, List.find?]
  · refine ⟨?_, ?_, trivial, trivial⟩
    · intro l hl
      simp [getLegs, List.find?] at hl
    · intro l hl hq0
      simp only [applyOp] at hl
      have : getLegs (open_leg { cash := 1000, fee_rate := 0, books := [], trades := [] }
          "X" "long" 1 10).1.books "X" = [{ side := "long", qty := 1, entry := 10 }] := by
        norm_num [open_leg, feeOf, appendLeg, getLegs, List.find?]
      rw [this] at hl
      rcases List.mem_singleton.mp hl with rfl
      rfl

/-- Matched lots of a FIFO close, written from the spec's words: walk the
legs in insertion order (oldest first), consume only legs of the closing
direction, each matched lot contributing its entry price and matched
quantity, until the requested quantity is exhausted. -/
def matchedLots (direction : String) : List Leg → ℚ → List (ℚ × ℚ)
  | [], _ => []
  | l :: rest, rem =>
      if rem ≤ 0 ∨ l.side ≠ direction then matchedLots direction rest rem
      else (l.entry, min l.qty rem) :: matchedLots direction rest (rem - min l.qty rem)

/-- Realized PnL over matched lots per the spec: (exit − entry) × qty for
longs, (entry − exit) × qty for shorts. -/
def lotPnl (direction : String) (price : ℚ) (lots : List (ℚ × ℚ)) : ℚ :=
  (lots.map (fun e =>
    if direction = "long" then (price - e.1) * e.2 else (e.1 - price) * e.2)).sum

/-- Remaining legs after a FIFO close per the spec's words: consumed oldest
first, each leg shrunk by its matched quantity and removed when (at most the
1e-12 dust threshold) nothing remains; other-side legs untouched. -/
def consumeLots (direction : String) : List Leg → ℚ → List Leg
  | [], _ => []
  | l :: rest, rem =>
      if rem ≤ 0 ∨ l.side ≠ direction then l :: consumeLots direction rest rem
      else
        if (1 : ℚ) / 1000000000000 < l.qty - min l.qty rem
        then { l with qty := l.qty - min l.qty rem } :: consumeLots direction rest (rem - min l.qty rem)
        else consumeLots direction rest (rem - min l.qty rem)

theorem fifoLoop_pnl (direction : String) (price : ℚ) (legs : List Leg) (rem : ℚ) :
    (fifoLoop direction price legs rem).1
      = lotPnl direction price (matchedLots direction legs rem) := by
  induction legs generalizing rem with
  | nil => simp [fifoLoop, matchedLots, lotPnl]
  | cons leg rest ih =>
      by_cases h1 : rem ≤ 0
      · simp [fifoLoop, matchedLots, h1, ih]
      by_cases h2 : leg.side ≠ direction
      · simp [fifoLoop, matchedLots, h1, h2, ih]
      · simp [fifoLoop, matchedLots, h1, h2, lotPnl, ih]

theorem fifoLoop_remaining_legs (direction : String) (price : ℚ) (legs : List Leg) (rem : ℚ) :
    (fifoLoop direction price legs rem).2.2 = consumeLots direction legs rem := by
  induction legs generalizing rem with
  | nil => simp [fifoLoop, consumeLots]
  | cons leg rest ih =>
      by_cases h1 : rem ≤ 0
      · simp [fifoLoop, consumeLots, h1, ih]
      by_cases h2 : leg.side ≠ direction
      · simp [fifoLoop, consumeLots, h1, h2, ih]
      · simp [fifoLoop, consumeLots, h1, h2, ih]

theorem qtySum_nonneg (direction : String) (legs : List Leg)
    (hq : ∀ l ∈ legs, 0 ≤ l.qty) :
    0 ≤ ((legs.filter (fun l => l.side = direction)).map (fun l => l.qty)).sum := by
  apply List.sum_nonneg
  intro x hx
  rcases List.mem_map.mp hx with ⟨l, hl, rfl⟩
  exact hq l (List.mem_of_mem_filter hl)

theorem matchedLots_total (direction : String) (legs : List Leg) (rem : ℚ)
    (hq : ∀ l ∈ legs, 0 ≤ l.qty) (h0 : 0 ≤ rem)
    (hcov : rem ≤ ((legs.filter (fun l => l.side = direction)).map (fun l => l.qty)).sum) :
    ((matchedLots direction legs rem).map (fun e => e.2)).sum = rem := by
  induction legs generalizing rem with
  | nil =>
      simp only [matchedLots, List.map_nil, List.sum_nil]
      simp only [List.filter_nil, List.map_nil, List.sum_nil] at hcov
      linarith
  | cons leg rest ih =>
      have hqrest : ∀ l ∈ rest, 0 ≤ l.qty := fun l hl => hq l (List.mem_cons_of_mem _ hl)
      by_cases h1 : rem ≤ 0
      · have hrem : rem = 0 := le_antisymm h1 h0
        subst hrem
        simp only [matchedLots, le_refl, true_or, if_pos]
        exact ih 0 hqrest (le_refl 0) (qtySum_nonneg direction rest hqrest)
      by_cases h2 : leg.side ≠ direction
      · have hcov' : rem ≤ ((rest.filter (fun l => l.side = direction)).map (fun l => l.qty)).sum := by
          rw [List.filter_cons, if_neg (by simpa using h2)] at hcov
          exact hcov
        simp only [matchedLots, if_pos (Or.inr h2)]
        exact ih rem hqrest h0 hcov'
      · have heq : leg.side = direction := not_not.mp h2
        have hcov2 : rem ≤ leg.qty +
            ((rest.filter (fun l => l.side = direction)).map (fun l => l.qty)).sum := by
          rw [List.filter_cons, if_pos (by simpa using heq)] at hcov
          simpa using hcov
        have hcond : ¬ (rem ≤ 0 ∨ leg.side ≠ direction) := by
          push_neg
          exact ⟨lt_of_not_le h1, heq⟩
        simp only [matchedLots, if_neg hcond, List.map_cons, List.sum_cons]
        have htail : ((matchedLots direction rest (rem - min leg.qty rem)).map (fun e => e.2)).sum
            = rem - min leg.qty rem := by
          apply ih
          · exact hqrest
          · simp [min_le_right leg.qty rem]
          · rcases min_cases leg.qty rem with ⟨hm, _⟩ | ⟨hm, hle⟩
            · rw [hm]; linarith
            · rw [hm]
              simpa using qtySum_nonneg direction rest hqrest
        rw [htail]
        ring

theorem netQtyLegs_eq_split (legs : List Leg)
    (hside : ∀ l ∈ legs, l.side = "long" ∨ l.side = "short") :
    netQtyLegs legs
      = ((legs.filter (fun l => l.side = "long")).map (fun l => l.qty)).sum
        - ((legs.filter (fun l => l.side = "short")).map (fun l => l.qty)).sum := by
  induction legs with
  | nil => simp [netQtyLegs]
  | cons l rest ih =>
      have ih' := ih (fun x hx => hside x (List.mem_cons_of_mem _ hx))
      have hnet : netQtyLegs (l :: rest) = legSigned l + netQtyLegs rest := by
        simp [netQtyLegs]
      rcases hside l (List.mem_cons_self _ _) with h | h
      · rw [hnet, ih', legSigned, if_pos h]
        rw [List.filter_cons, if_pos (by simpa using h)]
        rw [List.filter_cons, if_neg (by simp [h])]
        simp only [List.map_cons, List.sum_cons]
        ring
      · have hne : ¬ l.side = "long" := by rw [h]; decide
        rw [hnet, ih', legSigned, if_neg hne]
        rw [List.filter_cons, if_neg (by simpa using hne)]
        rw [List.filter_cons, if_pos (by simpa using h)]
        simp only [List.map_cons, List.sum_cons]
        ring

/-- C3.  FIFO closing correctness: for every `close_qty_fifo` call on a book
with non-zero net quantity (well-formed sides and quantities; for a net
short, enough cash for the buy-back), the call succeeds and the recorded
Trade's closed quantity equals min(requested, |net|); its realized PnL
equals the sum over the matched lots — consumed in insertion order, oldest
leg first — of (exit − entry)×matched_qty for longs or
(entry − exit)×matched_qty for shorts, minus the fee on the closed notional;
and the remaining legs are the originals shrunk or removed, oldest first, as
consumed. -/
theorem close_qty_fifo_spec (p : PaperPortfolio) (symbol : Sym) (req price : ℚ)
    (hreq : 0 < req)
    (hside : ∀ l ∈ getLegs p.books symbol, l.side = "long" ∨ l.side = "short")
    (hq : ∀ l ∈ getLegs p.books symbol, 0 ≤ l.qty)
    (hnq : netQtyLegs (getLegs p.books symbol) ≠ 0)
    (hcash : netQtyLegs (getLegs p.books symbol) < 0 →
      min req |netQtyLegs (getLegs p.books symbol)| * price +
        feeOf p.fee_rate (min req |netQtyLegs (getLegs p.books symbol)| * price) ≤ p.cash) :
    (close_qty_fifo p symbol req price).2 =
      .ok { symbol := symbol,
            side := if 0 < netQtyLegs (getLegs p.books symbol) then "sell" else "buy",
            qty := min req |netQtyLegs (getLegs p.books symbol)|,
            price := price,
            fee := feeOf p.fee_rate (min req |netQtyLegs (getLegs p.books symbol)| * price),
            pnl_realized :=
              lotPnl (if 0 < netQtyLegs (getLegs p.books symbol) then "long" else "short")
                  price
                  (matchedLots
                    (if 0 < netQtyLegs (getLegs p.books symbol) then "long" else "short")
                    (getLegs p.books symbol)
                    (min req |netQtyLegs (getLegs p.books symbol)|))
                - feeOf p.fee_rate (min req |netQtyLegs (getLegs p.books symbol)| * price) } ∧
    ((matchedLots (if 0 < netQtyLegs (getLegs p.books symbol) then "long" else "short")
        (getLegs p.books symbol) (min req |netQtyLegs (getLegs p.books symbol)|)).map
          (fun e => e.2)).sum = min req |netQtyLegs (getLegs p.books symbol)| ∧
    getLegs (close_qty_fifo p symbol req price).1.books symbol
      = consumeLots (if 0 < netQtyLegs (getLegs p.books symbol) then "long" else "short")
          (getLegs p.books symbol) (min req |netQtyLegs (getLegs p.books symbol)|) := by
  have hens := getLegs_ensureBook p.books symbol symbol
  have hnq' : ¬ netQtyLegs (getLegs (ensureBook p.books symbol) symbol) = 0 := by
    rw [hens]; exact hnq
  have hqty0 : 0 ≤ min req |netQtyLegs (getLegs p.books symbol)| :=
    le_min (le_of_lt hreq) (abs_nonneg _)
  have hsplit := netQtyLegs_eq_split (getLegs p.books symbol) hside
  have hLnn := qtySum_nonneg "long" (getLegs p.books symbol) hq
  have hSnn := qtySum_nonneg "short" (getLegs p.books symbol) hq
  by_cases h3 : 0 < netQtyLegs (getLegs p.books symbol)
  · have h3' : 0 < netQtyLegs (getLegs (ensureBook p.books symbol) symbol) := by
      rw [hens]; exact h3
    have htot : ((matchedLots "long" (getLegs p.books symbol)
        (min req |netQtyLegs (getLegs p.books symbol)|)).map (fun e => e.2)).sum
        = min req |netQtyLegs (getLegs p.books symbol)| := by
      apply matchedLots_total "long" _ _ hq hqty0
      have habs : |netQtyLegs (getLegs p.books symbol)| = netQtyLegs (getLegs p.books symbol) :=
        abs_of_pos h3
      calc min req |netQtyLegs (getLegs p.books symbol)|
          ≤ |netQtyLegs (getLegs p.books symbol)| := min_le_right _ _
        _ ≤ _ := by rw [habs, hsplit]; linarith
    refine ⟨?_, ?_, ?_⟩
    · simp only [close_qty_fifo, if_neg (not_le.mpr hreq), if_neg hnq', if_pos h3']
      simp [hens, fifoLoop_pnl, h3]
    · rw [if_pos h3]
      exact htot
    · simp only [close_qty_fifo, if_neg (not_le.mpr hreq), if_neg hnq', if_pos h3']
      have hset : ∀ legs, getLegs (setBook (ensureBook p.books symbol) symbol legs) symbol = legs :=
        fun legs => getLegs_setBook_eq _ _ _ (ensureBook_found _ _)
      simp [hens, h3, hset, fifoLoop_remaining_legs]
  · have h3' : ¬ 0 < netQtyLegs (getLegs (ensureBook p.books symbol) symbol) := by
      rw [hens]; exact h3
    have hneg : netQtyLegs (getLegs p.books symbol) < 0 :=
      lt_of_le_of_ne (not_lt.mp h3) hnq
    have hnocash : ¬ p.cash <
        min req |netQtyLegs (getLegs p.books symbol)| * price +
          feeOf p.fee_rate (min req |netQtyLegs (getLegs p.books symbol)| * price) :=
      not_lt.mpr (hcash hneg)
    have htot : ((matchedLots "short" (getLegs p.books symbol)
        (min req |netQtyLegs (getLegs p.books symbol)|)).map (fun e => e.2)).sum
        = min req |netQtyLegs (getLegs p.books symbol)| := by
      apply matchedLots_total "short" _ _ hq hqty0
      have habs : |netQtyLegs (getLegs p.books symbol)| = -netQtyLegs (getLegs p.books symbol) :=
        abs_of_neg hneg
      calc min req |netQtyLegs (getLegs p.books symbol)|
          ≤ |netQtyLegs (getLegs p.books symbol)| := min_le_right _ _
        _ ≤ _ := by rw [habs, hsplit]; linarith
    refine ⟨?_, ?_, ?_⟩
    · simp only [close_qty_fifo, if_neg (not_le.mpr hreq), if_neg hnq', if_neg h3']
      simp [hens, fifoLoop_pnl, h3, hnocash]
    · rw [if_neg h3]
      exact htot
    · simp only [close_qty_fifo, if_neg (not_le.mpr hreq), if_neg hnq', if_neg h3']
      have hset : ∀ legs, getLegs (setBook (ensureBook p.books symbol) symbol legs) symbol = legs :=
        fun legs => getLegs_setBook_eq _ _ _ (ensureBook_found _ _)
      simp [hens, h3, hnocash, hset, fifoLoop_remaining_legs]

/-- Witness for C3: the spec's example — legs of 1, 2, 3 units at entries
10, 11, 12, closing 2.5 units at price 20 with zero fee matches 1 unit @10
and 1.5 units @11 (oldest first), realizing (20−10)·1 + (20−11)·1.5 = 23.5,
and leaves legs of 0.5 @11 and 3 @12. -/
theorem close_qty_fifo_spec_witness :
    matchedLots "long"
        [{ side := "long", qty := 1, entry := 10 }, { side := "long", qty := 2, entry := 11 },
         { side := "long", qty := 3, entry := 12 }] (5/2)
      = [(10, 1), (11, 3/2)] ∧
    (close_qty_fifo
        { cash := 0, fee_rate := 0,
          books := [("X", [{ side := "long", qty := 1, entry := 10 },
                           { side := "long", qty := 2, entry := 11 },
                           { side := "long", qty := 3, entry := 12 }])],
          trades := [] } "X" (5/2) 20).2
      = .ok { symbol := "X", side := "sell", qty := 5/2, price := 20, fee := 0,
              pnl_realized := 47/2 } ∧
    getLegs (close_qty_fifo
        { cash := 0, fee_rate := 0,
          books := [("X", [{ side := "long", qty := 1, entry := 10 },
                           { side := "long", qty := 2, entry := 11 },
                           { side := "long", qty := 3, entry := 12 }])],
          trades := [] } "X" (5/2) 20).1.books "X"
      = [{ side := "long", qty := 1/2, entry := 11 }, { side := "long", qty := 3, entry := 12 }] := by
  have hlegs : getLegs [("X", [({ side := "long", qty := 1, entry := 10 } : Leg),
      { side := "long", qty := 2, entry := 11 }, { side := "long", qty := 3, entry := 12 }])] "X"
      = [{ side := "long", qty := 1, entry := 10 }, { side := "long", qty := 2, entry := 11 },
         { side := "long", qty := 3, entry := 12 }] := by
    simp [getLegs]
  have hspec := close_qty_fifo_spec
    { cash := 0, fee_rate := 0,
      books := [("X", [{ side := "long", qty := 1, entry := 10 },
                       { side := "long", qty := 2, entry := 11 },
                       { side := "long", qty := 3, entry := 12 }])],
      trades := [] } "X" (5/2) 20
    (by norm_num)
    (by rw [hlegs]; intro l hl; fin_cases hl <;> simp)
    (by rw [hlegs]; intro l hl; fin_cases hl <;> norm_num)
    (by rw [hlegs]; norm_num [netQtyLegs, legSigned])
    (by rw [hlegs]; norm_num [netQtyLegs, legSigned])
  refine ⟨by norm_num [matchedLots], ?_, ?_⟩
  · rw [hspec.1]
    norm_num [hlegs, netQtyLegs, legSigned, matchedLots, lotPnl, feeOf]
  · rw [hspec.2.2]
    norm_num [hlegs, netQtyLegs, legSigned, consumeLots]

/-- Orchestrator configuration, from `auto_manager.AutoConfig` (the fields
`step` reads; `interval_sec` only paces the caller and the mean-reversion
RSI thresholds are read by no code path). -/
structure AutoConfig where
  conf_entry : ℚ
  conf_add : ℚ
  max_open_assets : ℕ
  max_legs_per_asset : ℕ
  add_mode : String
  allow_short : Bool
  size_mode : String
  fixed_notional : ℚ
  risk_per_trade_pct : ℚ
  cooldown_sec : ℚ
  pyramiding_atr : ℚ

/-- `AutoManager._compute_qty` (src/core/auto_manager.py lines 55-74). -/
def compute_qty (cfg : AutoConfig) (price : ℚ) (sl : Option ℚ) (equity : ℚ) : ℚ :=
  if cfg.size_mode = "FIXED" then
    (if 0 < price then max 0 cfg.fixed_notional / price else 0)
  else
    match sl with
    | none => if 0 < price then max 0 cfg.fixed_notional / price else 0
    | some slv =>
        if slv = price then (if 0 < price then max 0 cfg.fixed_notional / price else 0)
        else
          let risk_amount := max 0 (equity * cfg.risk_per_trade_pct)
          let stop_dist := |price - slv|
          if stop_dist ≤ 0 then (if 0 < price then max 0 cfg.fixed_notional / price else 0)
          else max 0 (risk_amount / stop_dist)

/-- Per-symbol market input to one `step` call: the OHLC frame reduced to
exactly what `step` reads from it — bar count, last close, last ATR value
(NaN as `none`), and the engine's decision for that frame (supplied as an
oracle: `step` treats `DecisionEngine.decide`'s output as opaque data). -/
structure SymData where
  dfLen : ℕ
  price : ℚ
  atrRaw : Option ℚ
  decision : TradeDecision

/-- Orchestrator state, from `AutoManager`: the portfolio and the
per-symbol last-trade-time map (times in seconds as rationals). -/
structure AutoState where
  portfolio : PaperPortfolio
  lastTradeTime : Sym → Option ℚ

/-- `AutoManager._cooldown_ok` (src/core/auto_manager.py lines 42-46). -/
def cooldown_ok (st : AutoState) (symbol : Sym) (now cooldown_sec : ℚ) : Bool :=
  match st.lastTradeTime symbol with
  | none => true
  | some t0 => decide (cooldown_sec ≤ now - t0)

/-- `AutoManager._position_count` (src/core/auto_manager.py lines 48-53). -/
def position_count (p : PaperPortfolio) : ℕ :=
  (p.books.filter (fun e => netQtyLegs e.2 ≠ 0)).length

/-- Record a symbol's last trade time (`self.last_trade_time[symbol] = now`). -/
def setTime (f : Sym → Option ℚ) (s : Sym) (now : ℚ) : Sym → Option ℚ :=
  fun t => if t = s then some now else f t

/-- The single ledger action (if any) one watchlist iteration of
`AutoManager.step` performs for a symbol. -/
inductive StepAct where
  | idle
  | closePos (qty price : ℚ)
  | openPos (side : String) (qty price : ℚ) (isEntry : Bool)
deriving Repr, DecidableEq

/-- The pure branch logic of one watchlist iteration of `AutoManager.step`
(src/core/auto_manager.py lines 101-234), deciding which single ledger call
the iteration makes: skip guards (no/short frame, cooldown), then for an
open position HOLD / opposite-signal scale-out of 50% / add logic
(PYRAMID or MEANREV), else the flat-entry logic. -/
def stepPlan (cfg : AutoConfig) (market : Sym → Option SymData) (equity now : ℚ)
    (st : AutoState) (openAssets : ℕ) (symbol : Sym) : StepAct :=
  match market symbol with
  | none => .idle
  | some dat =>
    if dat.dfLen < 120 then .idle
    else
      let price := dat.price
      let a := dat.atrRaw.getD 0
      let nq := netQtyP st.portfolio symbol
      let direction := if 0 < nq then "long" else if nq < 0 then "short" else "flat"
      if cooldown_ok st symbol now cfg.cooldown_sec = false then .idle
      else
        let d := dat.decision
        if direction ≠ "flat" then
          if d.action = "HOLD" then .idle
          else if (direction = "long" ∧ d.action = "SELL") ∨
                  (direction = "short" ∧ d.action = "BUY") then
            .closePos (|nq| * (1/2)) price
          else if cfg.add_mode = "OFF" then .idle
          else if cfg.max_legs_per_asset ≤ legsCountP st.portfolio symbol then .idle
          else if cfg.add_mode = "PYRAMID" then
            if a ≤ 0 then .idle
            else if direction = "long" then
              if cfg.pyramiding_atr * a ≤ price - avgEntryP st.portfolio symbol ∧
                  d.action = "BUY" ∧ cfg.conf_add ≤ d.confidence then
                let qty := compute_qty cfg price d.stop_loss equity
                if 0 < qty then .openPos "long" qty price false else .idle
              else .idle
            else
              if cfg.pyramiding_atr * a ≤ avgEntryP st.portfolio symbol - price ∧
                  d.action = "SELL" ∧ cfg.conf_add ≤ d.confidence ∧ cfg.allow_short = true then
                let qty := compute_qty cfg price d.stop_loss equity
                if 0 < qty then .openPos "short" qty price false else .idle
              else .idle
          else if cfg.add_mode = "MEANREV" then
            if d.regime ≠ "RANGE" then .idle
            else if direction = "long" then
              if d.action = "BUY" ∧ cfg.conf_add ≤ d.confidence then
                let qty := compute_qty cfg price d.stop_loss equity * (6/10)
                if 0 < qty then .openPos "long" qty price false else .idle
              else .idle
            else
              if d.action = "SELL" ∧ cfg.conf_add ≤ d.confidence ∧ cfg.allow_short = true then
                let qty := compute_qty cfg price d.stop_loss equity * (6/10)
                if 0 < qty then .openPos "short" qty price false else .idle
              else .idle
          else .idle
        else
          if cfg.max_open_assets ≤ openAssets then .idle
          else if d.action = "HOLD" then .idle
          else if d.confidence < cfg.conf_entry then .idle
          else if d.action = "BUY" then
            let qty := compute_qty cfg price d.stop_loss equity
            if 0 < qty then .openPos "long" qty price true else .idle
          else if d.action = "SELL" ∧ cfg.allow_short = true then
            let qty := compute_qty cfg price d.stop_loss equity
            if 0 < qty then .openPos "short" qty price true else .idle
          else .idle

/-- One watchlist iteration of `AutoManager.step`: perform the planned
ledger call, record the last-trade time on success, bump the open-asset
count on a flat entry, and propagate ledger exceptions as in Python. -/
def stepSym (cfg : AutoConfig) (market : Sym → Option SymData) (equity now : ℚ)
    (acc : AutoState × ℕ) (symbol : Sym) : Except String (AutoState × ℕ) :=
  match stepPlan cfg market equity now acc.1 acc.2 symbol with
  | .idle => .ok acc
  | .closePos qty price =>
      match close_qty_fifo acc.1.portfolio symbol qty price with
      | (p2, .ok _) =>
          .ok ({ portfolio := p2, lastTradeTime := setTime acc.1.lastTradeTime symbol now },
               acc.2)
      | (_, .error e) => .error e
  | .openPos side qty price isEntry =>
      match open_leg acc.1.portfolio symbol side qty price with
      | (p2, .ok _) =>
          .ok ({ portfolio := p2, lastTradeTime := setTime acc.1.lastTradeTime symbol now },
               if isEntry then acc.2 + 1 else acc.2)
      | (_, .error e) => .error e

/-- Process the watchlist in order, threading state and stopping at the
first ledger exception. -/
def runStep (cfg : AutoConfig) (market : Sym → Option SymData) (equity now : ℚ) :
    List Sym → (AutoState × ℕ) → Except String (AutoState × ℕ)
  | [], acc => .ok acc
  | s :: rest, acc =>
      match stepSym cfg market equity now acc s with
      | .ok acc2 => runStep cfg market equity now rest acc2
      | .error e => .error e

/-- `AutoManager.step` (src/core/auto_manager.py lines 76-236): build the
price map from the non-empty frames, compute the equity once, count the
open assets, then process each watched symbol in order. -/
def step (cfg : AutoConfig) (watchlist : List Sym) (market : Sym → Option SymData)
    (now : ℚ) (st0 : AutoState) : Except String (AutoState × ℕ) :=
  let prices : Sym → Option ℚ := fun s =>
    match market s with
    | some d => if d.dfLen ≠ 0 then some d.price else none
    | none => none
  let equity := equityP st0.portfolio prices
  runStep cfg market equity now watchlist (st0, position_count st0.portfolio)

theorem open_leg_frame (p : PaperPortfolio) (sym side : String) (q pr : ℚ) (t : Sym)
    (ht : t ≠ sym) :
    getLegs (open_leg p sym side q pr).1.books t = getLegs p.books t ∧
    (open_leg p sym side q pr).1.trades.filter (fun x => x.symbol = t)
      = p.trades.filter (fun x => x.symbol = t) := by
  have hst : ¬ sym = t := fun hc => ht hc.symm
  by_cases h1 : q ≤ 0
  · simp [open_leg, h1]
  by_cases h2 : side = "long"
  · by_cases h3 : p.cash < q * pr + feeOf p.fee_rate (q * pr)
    · simp [open_leg, h1, h2, h3]
    · constructor
      · simp [open_leg, h1, h2, h3, getLegs_appendLeg_ne _ _ _ _ ht]
      · simp [open_leg, h1, h2, h3, List.filter_append, hst]
  by_cases h4 : side = "short"
  · constructor
    · simp [open_leg, h1, h2, h4, getLegs_appendLeg_ne _ _ _ _ ht]
    · simp [open_leg, h1, h2, h4, List.filter_append, hst]
  · simp [open_leg, h1, h2, h4]

theorem close_frame (p : PaperPortfolio) (symbol : Sym) (cq cpr : ℚ) (t : Sym)
    (ht : t ≠ symbol) :
    getLegs (close_qty_fifo p symbol cq cpr).1.books t = getLegs p.books t ∧
    (close_qty_fifo p symbol cq cpr).1.trades.filter (fun x => x.symbol = t)
      = p.trades.filter (fun x => x.symbol = t) := by
  have hst : ¬ symbol = t := fun hc => ht hc.symm
  by_cases h1 : cq ≤ 0
  · simp [close_qty_fifo, h1]
  by_cases h2 : netQtyLegs (getLegs p.books symbol) = 0
  · simp [close_qty_fifo, h1, h2, getLegs_ensureBook]
  by_cases h3 : 0 < netQtyLegs (getLegs p.books symbol)
  · constructor
    · simp [close_qty_fifo, h1, h2, h3,
        getLegs_setBook_ne _ _ _ _ ht, getLegs_ensureBook]
    · simp [close_qty_fifo, h1, h2, h3, List.filter_append, hst, getLegs_ensureBook]
  · by_cases h4 : p.cash <
        min cq |netQtyLegs (getLegs p.books symbol)| * cpr +
          feeOf p.fee_rate (min cq |netQtyLegs (getLegs p.books symbol)| * cpr)
    · simp [close_qty_fifo, h1, h2, h3, h4, getLegs_ensureBook]
    · constructor
      · simp [close_qty_fifo, h1, h2, h3, h4,
          getLegs_setBook_ne _ _ _ _ ht, getLegs_ensureBook]
      · simp [close_qty_fifo, h1, h2, h3, h4, List.filter_append, hst, getLegs_ensureBook]

theorem close_ok_out (p : PaperPortfolio) (symbol : Sym) (cq cpr : ℚ)
    (p2 : PaperPortfolio) (tr : Trade)
    (h : close_qty_fifo p symbol cq cpr = (p2, .ok tr)) :
    tr.symbol = symbol ∧
    tr.qty = min cq |netQtyLegs (getLegs p.books symbol)| ∧
    tr.side = (if 0 < netQtyLegs (getLegs p.books symbol) then "sell" else "buy") ∧
    p2.trades = p.trades ++ [tr] ∧
    getLegs p2.books symbol
      = (fifoLoop (if 0 < netQtyLegs (getLegs p.books symbol) then "long" else "short")
          cpr (getLegs p.books symbol)
          (min cq |netQtyLegs (getLegs p.books symbol)|)).2.2 := by
  have hens := getLegs_ensureBook p.books symbol symbol
  have hset : ∀ legs, getLegs (setBook (ensureBook p.books symbol) symbol legs) symbol = legs :=
    fun legs => getLegs_setBook_eq _ _ _ (ensureBook_found _ _)
  by_cases h1 : cq ≤ 0
  · simp [close_qty_fifo, h1] at h
  by_cases h2 : netQtyLegs (getLegs (ensureBook p.books symbol) symbol) = 0
  · simp [close_qty_fifo, h1, h2] at h
  by_cases h3 : 0 < netQtyLegs (getLegs (ensureBook p.books symbol) symbol)
  · have h3p : 0 < netQtyLegs (getLegs p.books symbol) := by rw [← hens]; exact h3
    simp only [close_qty_fifo, if_neg h1, if_neg h2, if_pos h3] at h
    rcases Prod.mk.injEq .. ▸ h with ⟨hp2, htr⟩
    rcases Except.ok.injEq .. ▸ htr with htr'
    subst hp2
    have htr2 := htr'.symm
    subst htr2
    refine ⟨rfl, by rw [hens], by rw [if_pos h3p], rfl, ?_⟩
    rw [hset, hens, if_pos h3p]
  · by_cases h4 : p.cash <
        min cq |netQtyLegs (getLegs (ensureBook p.books symbol) symbol)| * cpr +
          feeOf p.fee_rate
            (min cq |netQtyLegs (getLegs (ensureBook p.books symbol) symbol)| * cpr)
    · simp [close_qty_fifo, h1, h2, h3, h4] at h
    · have h3p : ¬ 0 < netQtyLegs (getLegs p.books symbol) := by rw [← hens]; exact h3
      simp only [close_qty_fifo, if_neg h1, if_neg h2, if_neg h3] at h
      simp only [if_neg (show ¬ ("short" : String) = "long" by decide), if_neg h4] at h
      rcases Prod.mk.injEq .. ▸ h with ⟨hp2, htr⟩
      rcases Except.ok.injEq .. ▸ htr with htr'
      subst hp2
      have htr2 := htr'.symm
      subst htr2
      refine ⟨rfl, by rw [hens], by rw [if_neg h3p], rfl, ?_⟩
      rw [hset, hens, if_neg h3p]

theorem fifoLoop_other_side (direction opp : String) (price : ℚ) (legs : List Leg)
    (rem : ℚ) (hne : opp ≠ direction) :
    ((fifoLoop direction price legs rem).2.2).filter (fun l => l.side = opp)
      = legs.filter (fun l => l.side = opp) := by
  induction legs generalizing rem with
  | nil => simp [fifoLoop]
  | cons leg rest ih =>
      by_cases h1 : rem ≤ 0
      · simp only [fifoLoop, if_pos h1]
        rw [List.filter_cons, List.filter_cons, ih]
      by_cases h2 : leg.side ≠ direction
      · simp only [fifoLoop, if_neg h1, if_pos h2]
        rw [List.filter_cons, List.filter_cons, ih]
      · have heq : leg.side = direction := not_not.mp h2
        have hopp : ¬ leg.side = opp := by rw [heq]; exact fun hc => hne hc.symm
        by_cases h3 : (1 : ℚ) / 1000000000000 < leg.qty - min leg.qty rem
        · simp only [fifoLoop, if_neg h1, if_neg h2, if_pos h3]
          rw [List.filter_cons, List.filter_cons]
          simp [hopp, ih]
        · simp only [fifoLoop, if_neg h1, if_neg h2, if_neg h3]
          rw [List.filter_cons]
          simp [hopp, ih]

theorem stepSym_frame (cfg : AutoConfig) (market : Sym → Option SymData)
    (equity now : ℚ) (acc acc2 : AutoState × ℕ) (s t : Sym) (ht : t ≠ s)
    (h : stepSym cfg market equity now acc s = .ok acc2) :
    getLegs acc2.1.portfolio.books t = getLegs acc.1.portfolio.books t ∧
    acc2.1.portfolio.trades.filter (fun x => x.symbol = t)
      = acc.1.portfolio.trades.filter (fun x => x.symbol = t) ∧
    acc2.1.lastTradeTime t = acc.1.lastTradeTime t := by
  unfold stepSym at h
  cases hplan : stepPlan cfg market equity now acc.1 acc.2 s with
  | idle =>
      rw [hplan] at h
      cases h
      exact ⟨rfl, rfl, rfl⟩
  | closePos qty price =>
      rw [hplan] at h
      dsimp only at h
      cases hc : close_qty_fifo acc.1.portfolio s qty price with
      | mk p2 res =>
          rw [hc] at h
          cases res with
          | error e => cases h
          | ok tr =>
              cases h
              have hframe := close_frame acc.1.portfolio s qty price t ht
              rw [hc] at hframe
              exact ⟨hframe.1, hframe.2, by simp [setTime, ht]⟩
  | openPos side qty price isEntry =>
      rw [hplan] at h
      dsimp only at h
      cases ho : open_leg acc.1.portfolio s side qty price with
      | mk p2 res =>
          rw [ho] at h
          cases res with
          | error e => cases h
          | ok tr =>
              cases h
              have hframe := open_leg_frame acc.1.portfolio s side qty price t ht
              rw [ho] at hframe
              exact ⟨hframe.1, hframe.2, by simp [setTime, ht]⟩

theorem runStep_frame (cfg : AutoConfig) (market : Sym → Option SymData)
    (equity now : ℚ) (l : List Sym) (acc acc2 : AutoState × ℕ) (t : Sym)
    (ht : t ∉ l) (h : runStep cfg market equity now l acc = .ok acc2) :
    getLegs acc2.1.portfolio.books t = getLegs acc.1.portfolio.books t ∧
    acc2.1.portfolio.trades.filter (fun x => x.symbol = t)
      = acc.1.portfolio.trades.filter (fun x => x.symbol = t) ∧
    acc2.1.lastTradeTime t = acc.1.lastTradeTime t := by
  induction l generalizing acc with
  | nil =>
      cases h
      exact ⟨rfl, rfl, rfl⟩
  | cons s rest ih =>
      have hts : t ≠ s := fun hc => ht (hc ▸ List.mem_cons_self _ _)
      have htrest : t ∉ rest := fun hc => ht (List.mem_cons_of_mem _ hc)
      unfold runStep at h
      cases hstep : stepSym cfg market equity now acc s with
      | error e => rw [hstep] at h; cases h
      | ok accM =>
          rw [hstep] at h
          have h1 := stepSym_frame cfg market equity now acc accM s t hts hstep
          have h2 := ih accM htrest h
          exact ⟨h2.1.trans h1.1, h2.2.1.trans h1.2.1, h2.2.2.trans h1.2.2⟩

theorem runStep_append (cfg : AutoConfig) (market : Sym → Option SymData)
    (equity now : ℚ) (l1 l2 : List Sym) (acc : AutoState × ℕ) :
    runStep cfg market equity now (l1 ++ l2) acc
      = match runStep cfg market equity now l1 acc with
        | .ok accM => runStep cfg market equity now l2 accM
        | .error e => .error e := by
  induction l1 generalizing acc with
  | nil => rfl
  | cons s rest ih =>
      simp only [List.cons_append, runStep]
      cases stepSym cfg market equity now acc s with
      | ok accM => simp [ih]
      | error e => rfl

theorem runStep_cons (cfg : AutoConfig) (market : Sym → Option SymData)
    (equity now : ℚ) (s : Sym) (rest : List Sym) (acc : AutoState × ℕ) :
    runStep cfg market equity now (s :: rest) acc
      = match stepSym cfg market equity now acc s with
        | .ok acc2 => runStep cfg market equity now rest acc2
        | .error e => .error e := rfl

theorem runStep_flip_aux (cfg : AutoConfig) (market : Sym → Option SymData)
    (E now : ℚ) (pre post : List Sym) (symbol : Sym) (dat : SymData)
    (acc0 : AutoState × ℕ) (st1 : AutoState) (n1 : ℕ)
    (hnotpre : symbol ∉ pre) (hnotpost : symbol ∉ post)
    (hdat : market symbol = some dat) (hlen : 120 ≤ dat.dfLen)
    (hcool : cooldown_ok acc0.1 symbol now cfg.cooldown_sec = true)
    (hopp : (0 < netQtyP acc0.1.portfolio symbol ∧ dat.decision.action = "SELL") ∨
            (netQtyP acc0.1.portfolio symbol < 0 ∧ dat.decision.action = "BUY"))
    (hok : runStep cfg market E now (pre ++ symbol :: post) acc0 = .ok (st1, n1)) :
    st1.lastTradeTime symbol = some now ∧
    (∃ tr : Trade,
      st1.portfolio.trades.filter (fun x => x.symbol = symbol)
        = acc0.1.portfolio.trades.filter (fun x => x.symbol = symbol) ++ [tr] ∧
      tr.qty = |netQtyP acc0.1.portfolio symbol| * (1/2) ∧
      tr.side = (if 0 < netQtyP acc0.1.portfolio symbol then "sell" else "buy")) ∧
    ((getLegs st1.portfolio.books symbol).filter
        (fun l => l.side = (if 0 < netQtyP acc0.1.portfolio symbol then "short" else "long")))
      = ((getLegs acc0.1.portfolio.books symbol).filter
        (fun l => l.side = (if 0 < netQtyP acc0.1.portfolio symbol then "short" else "long"))) := by
  rw [runStep_append] at hok
  cases hpre : runStep cfg market E now pre acc0 with
  | error e => rw [hpre] at hok; cases hok
  | ok accM =>
      rw [hpre] at hok
      dsimp only at hok
      have hfr1 := runStep_frame cfg market E now pre acc0 accM symbol hnotpre hpre
      have hnq : netQtyP accM.1.portfolio symbol = netQtyP acc0.1.portfolio symbol := by
        unfold netQtyP
        rw [hfr1.1]
      have hcoolM : cooldown_ok accM.1 symbol now cfg.cooldown_sec = true := by
        unfold cooldown_ok at hcool ⊢
        rw [hfr1.2.2]
        exact hcool
      have hlen2 : ¬ dat.dfLen < 120 := by omega
      have hplan : stepPlan cfg market E now accM.1 accM.2 symbol
          = .closePos (|netQtyP acc0.1.portfolio symbol| * (1/2)) dat.price := by
        rcases hopp with ⟨hpos, hact⟩ | ⟨hneg, hact⟩
        · simp [stepPlan, hdat, hlen2, hcoolM, hnq, hpos, hact]
        · have hnotpos : ¬ 0 < netQtyP acc0.1.portfolio symbol := by linarith
          simp [stepPlan, hdat, hlen2, hcoolM, hnq, hnotpos, hneg, hact]
      rw [runStep_cons] at hok
      unfold stepSym at hok
      rw [hplan] at hok
      dsimp only at hok
      cases hclose : close_qty_fifo accM.1.portfolio symbol
          (|netQtyP acc0.1.portfolio symbol| * (1/2)) dat.price with
      | mk p2 res =>
          rw [hclose] at hok
          cases res with
          | error e => cases hok
          | ok tr =>
              have hout := close_ok_out accM.1.portfolio symbol
                (|netQtyP acc0.1.portfolio symbol| * (1/2)) dat.price p2 tr hclose
              have habs : (0 : ℚ) ≤ |netQtyP acc0.1.portfolio symbol| := abs_nonneg _
              have hmin : min (|netQtyP acc0.1.portfolio symbol| * (1/2))
                  |netQtyLegs (getLegs accM.1.portfolio.books symbol)|
                  = |netQtyP acc0.1.portfolio symbol| * (1/2) := by
                have : netQtyLegs (getLegs accM.1.portfolio.books symbol)
                    = netQtyP acc0.1.portfolio symbol := hnq
                rw [this]
                exact min_eq_left (by linarith)
              have hfr2 := runStep_frame cfg market E now post
                ({ portfolio := p2, lastTradeTime := setTime accM.1.lastTradeTime symbol now },
                  accM.2) (st1, n1) symbol hnotpost hok
              refine ⟨?_, ⟨tr, ?_, ?_, ?_⟩, ?_⟩
              · rw [hfr2.2.2]
                simp [setTime]
              · rw [hfr2.2.1]
                have : p2.trades = accM.1.portfolio.trades ++ [tr] := hout.2.2.2.1
                simp only [this, List.filter_append]
                rw [hfr1.2.1]
                congr 1
                simp [hout.1]
              · rw [hout.2.1, hmin]
              · rw [hout.2.2.1]
                have : netQtyLegs (getLegs accM.1.portfolio.books symbol)
                    = netQtyP acc0.1.portfolio symbol := hnq
                rw [this]
              · rw [hfr2.1]
                have hlegs := hout.2.2.2.2
                have hnql : netQtyLegs (getLegs accM.1.portfolio.books symbol)
                    = netQtyP acc0.1.portfolio symbol := hnq
                rw [hlegs, hnql]
                by_cases hpos : 0 < netQtyP acc0.1.portfolio symbol
                · rw [if_pos hpos, if_pos hpos]
                  rw [fifoLoop_other_side "long" "short" _ _ _ (by decide)]
                  rw [hfr1.1]
                · rw [if_neg hpos, if_neg hpos]
                  rw [fifoLoop_other_side "short" "long" _ _ _ (by decide)]
                  rw [hfr1.1]

/-- C8.  No same-tick reversal: in any `step` over a duplicate-free
watchlist, for an instrument with an open position whose decision is
opposite in direction (net long with a SELL, or net short with a BUY), a
successful step closes exactly 50% of the open quantity on the reducing
side (the only trade recorded for that instrument in the tick), resets the
instrument's cooldown timestamp to `now`, and never opens a leg on the
opposite side of that instrument within the same tick (the book's
opposite-side legs are exactly those from before the step). -/
theorem step_no_same_tick_reversal
    (cfg : AutoConfig) (watchlist : List Sym) (market : Sym → Option SymData)
    (now : ℚ) (st0 : AutoState) (symbol : Sym) (dat : SymData)
    (st1 : AutoState) (n1 : ℕ)
    (hnd : watchlist.Nodup)
    (hmem : symbol ∈ watchlist)
    (hdat : market symbol = some dat)
    (hlen : 120 ≤ dat.dfLen)
    (hcool : cooldown_ok st0 symbol now cfg.cooldown_sec = true)
    (hopp : (0 < netQtyP st0.portfolio symbol ∧ dat.decision.action = "SELL") ∨
            (netQtyP st0.portfolio symbol < 0 ∧ dat.decision.action = "BUY"))
    (hok : step cfg watchlist market now st0 = .ok (st1, n1)) :
    st1.lastTradeTime symbol = some now ∧
    (∃ tr : Trade,
      st1.portfolio.trades.filter (fun x => x.symbol = symbol)
        = st0.portfolio.trades.filter (fun x => x.symbol = symbol) ++ [tr] ∧
      tr.qty = |netQtyP st0.portfolio symbol| * (1/2) ∧
      tr.side = (if 0 < netQtyP st0.portfolio symbol then "sell" else "buy")) ∧
    ((getLegs st1.portfolio.books symbol).filter
        (fun l => l.side = (if 0 < netQtyP st0.portfolio symbol then "short" else "long")))
      = ((getLegs st0.portfolio.books symbol).filter
        (fun l => l.side = (if 0 < netQtyP st0.portfolio symbol then "short" else "long"))) := by
  rcases List.append_of_mem hmem with ⟨pre, post, rfl⟩
  rw [List.nodup_append] at hnd
  obtain ⟨hnd1, hnd2, hdisj⟩ := hnd
  have hnotpre : symbol ∉ pre := fun hc => hdisj hc (List.mem_cons_self _ _)
  have hnotpost : symbol ∉ post := (List.nodup_cons.mp hnd2).1
  simp only [step] at hok
  exact runStep_flip_aux cfg market _ now pre post symbol dat
    (st0, position_count st0.portfolio) st1 n1 hnotpre hnotpost hdat hlen hcool hopp hok

/-- Witness for C8: one watched symbol "X" net long 1 with a SELL decision;
the step scales out 0.5 on the sell side, resets the cooldown, and the book
gains no short leg. -/
theorem step_no_same_tick_reversal_witness :
    (AutoState.mk
        { cash := 105, fee_rate := 0,
          books := [("X", [{ side := "long", qty := 1/2, entry := 10 }])],
          trades := [{ symbol := "X", side := "sell", qty := 1/2, price := 10,
                       fee := 0, pnl_realized := 0 }] }
        (setTime (fun _ => none) "X" 0)).lastTradeTime "X" = some 0 ∧
    (∃ tr : Trade,
      (AutoState.mk
        { cash := 105, fee_rate := 0,
          books := [("X", [{ side := "long", qty := 1/2, entry := 10 }])],
          trades := [{ symbol := "X", side := "sell", qty := 1/2, price := 10,
                       fee := 0, pnl_realized := 0 }] }
        (setTime (fun _ => none) "X" 0)).portfolio.trades.filter (fun x => x.symbol = "X")
        = (AutoState.mk
            { cash := 100, fee_rate := 0,
              books := [("X", [{ side := "long", qty := 1, entry := 10 }])], trades := [] }
            (fun _ => none)).portfolio.trades.filter (fun x => x.symbol = "X") ++ [tr] ∧
      tr.qty = |netQtyP (AutoState.mk
            { cash := 100, fee_rate := 0,
              books := [("X", [{ side := "long", qty := 1, entry := 10 }])], trades := [] }
            (fun _ => none)).portfolio "X"| * (1/2) ∧
      tr.side = (if 0 < netQtyP (AutoState.mk
            { cash := 100, fee_rate := 0,
              books := [("X", [{ side := "long", qty := 1, entry := 10 }])], trades := [] }
            (fun _ => none)).portfolio "X" then "sell" else "buy")) ∧
    ((getLegs (AutoState.mk
        { cash := 105, fee_rate := 0,
          books := [("X", [{ side := "long", qty := 1/2, entry := 10 }])],
          trades := [{ symbol := "X", side := "sell", qty := 1/2, price := 10,
                       fee := 0, pnl_realized := 0 }] }
        (setTime (fun _ => none) "X" 0)).portfolio.books "X").filter
        (fun l => l.side = (if 0 < netQtyP (AutoState.mk
            { cash := 100, fee_rate := 0,
              books := [("X", [{ side := "long", qty := 1, entry := 10 }])], trades := [] }
            (fun _ => none)).portfolio "X" then "short" else "long")))
      = ((getLegs (AutoState.mk
            { cash := 100, fee_rate := 0,
              books := [("X", [{ side := "long", qty := 1, entry := 10 }])], trades := [] }
            (fun _ => none)).portfolio.books "X").filter
        (fun l => l.side = (if 0 < netQtyP (AutoState.mk
            { cash := 100, fee_rate := 0,
              books := [("X", [{ side := "long", qty := 1, entry := 10 }])], trades := [] }
            (fun _ => none)).portfolio "X" then "short" else "long"))) := by
  have hq : (0 : ℚ) < netQtyP (AutoState.mk
      { cash := 100, fee_rate := 0,
        books := [("X", [{ side := "long", qty := 1, entry := 10 }])], trades := [] }
      (fun _ => none)).portfolio "X" := by
    norm_num [netQtyP, getLegs, netQtyLegs, legSigned]
  exact step_no_same_tick_reversal
    ⟨7/10, 8/10, 6, 3, "PYRAMID", true, "FIXED", 50, 1/100, 120, 8/10⟩
    ["X"]
    (fun s => if s = "X" then
        some ⟨120, 10, none, ⟨"SELL", none, none, none, 1, "TREND"⟩⟩ else none)
    0
    (AutoState.mk
      { cash := 100, fee_rate := 0,
        books := [("X", [{ side := "long", qty := 1, entry := 10 }])], trades := [] }
      (fun _ => none))
    "X"
    ⟨120, 10, none, ⟨"SELL", none, none, none, 1, "TREND"⟩⟩
    (AutoState.mk
      { cash := 105, fee_rate := 0,
        books := [("X", [{ side := "long", qty := 1/2, entry := 10 }])],
        trades := [{ symbol := "X", side := "sell", qty := 1/2, price := 10,
                     fee := 0, pnl_realized := 0 }] }
      (setTime (fun _ => none) "X" 0))
    1
    (by simp)
    (by simp)
    (by simp)
    (by norm_num)
    rfl
    (Or.inl ⟨hq, rfl⟩)
    (by
      norm_num [step, runStep, stepSym, stepPlan, cooldown_ok, netQtyP, getLegs,
        netQtyLegs, legSigned, position_count, close_qty_fifo, ensureBook, hasBook,
        setBook, fifoLoop, feeOf, legsCountP, avgEntryP, equityP, compute_qty]
      simp
      norm_num [setTime])

end TradingBot
